import Mathlib

/-!
# Concurrent web crawler (`main.go`): interleaving model and checked properties

The Go program is embedded as a small-step machine over one global state `Sys`.
Every goroutine (a `worker`, a `handleStart`, `handleStop` or `handleWebSocket`
call) is a thread with a program position; one `Action` lets one thread run up
to its next synchronisation point (a channel operation, a mutex-protected
section, a call of a collaborator).  A list of actions is one interleaving.

The collaborators `canFetch`, `fetch`, `parseLinks`, the JSON encoder and the
`net/url` functions are parameters (`Env`).  Wall-clock time (`CrawlResult.Time`,
log output) is not modelled.
-/

namespace Crawler

/-! ## Data model -/

/-- The fields of `url.URL` that `main.go` and `URL.String` read. -/
structure URL where
  Scheme : String := ""
  Opaque : String := ""
  Host : String := ""
  Path : String := ""
  RawQuery : String := ""
  Fragment : String := ""
  ForceQuery : Bool := false
  OmitHost : Bool := false
deriving DecidableEq

/-- `CrawlResult` (main.go 21-26) without its `Time` field. -/
structure CrawlResult where
  URL : String
  WorkerID : Int
  Status : String
deriving DecidableEq

/-- The collaborators of the engine. `fetch` and `parseLinks` return the Go
pair `(value, err)` as `Except`, the error carrying `err.Error()`;
`urlParse` is `url.Parse` (`none` when it returns an error),
`resolveReference base ref` is `base.ResolveReference(ref)`, `urlString` is
`URL.String`, `marshal` is `json.Marshal`. -/
structure Env where
  canFetch : String → Bool
  fetch : String → Except String String
  parseLinks : String → Except String (List String)
  urlParse : String → Option URL
  resolveReference : URL → URL → URL
  urlString : URL → String
  marshal : CrawlResult → String

/-- `normalizeURL` (main.go 413-423). -/
def normalizeURL (env : Env) (link baseURL : String) : String :=
  match env.urlParse baseURL with
  | none => link
  | some parsedBase =>
    match env.urlParse link with
    | none => link
    | some parsedLink => env.urlString (env.resolveReference parsedBase parsedLink)

/-! ## A model of `net/url`

The Go standard library is not part of the repository.  The functions below
follow `url.Parse`, `URL.ResolveReference` and `URL.String` for URLs made of
a scheme, a host with an optional numeric port, a path, a query and a
fragment, none of which needs percent-escaping.  Outside that class the model
differs from Go: user information, percent escapes and bracketed hosts, which
Go parses, are reported as parse failures, and `toString` writes a path as it
is where Go would escape it.  The model is only used to instantiate
`Env.urlParse`, `Env.resolveReference` and `Env.urlString` in the concrete
environment `site`, whose scenarios stay inside the class; all general
statements take these three functions as parameters. -/

namespace NetURL

/-- `strings.Cut` on characters: text before the separator, text after it,
and whether the separator was found. -/
def cut (sep : Char) : List Char → List Char × List Char × Bool
  | [] => ([], [], false)
  | c :: cs =>
    if c = sep then ([], cs, true)
    else
      let r := cut sep cs
      (c :: r.1, r.2.1, r.2.2)

/-- Position of the last occurrence of `sep` (`strings.LastIndex`). -/
def lastIndex (sep : Char) : List Char → Option Nat
  | [] => none
  | c :: cs =>
    match lastIndex sep cs with
    | some i => some (i + 1)
    | none => if c = sep then some 0 else none

def isLetter (c : Char) : Bool :=
  (decide ('a' ≤ c) && decide (c ≤ 'z')) || (decide ('A' ≤ c) && decide (c ≤ 'Z'))

def isDigit (c : Char) : Bool := decide ('0' ≤ c) && decide (c ≤ '9')

def isCTL (c : Char) : Bool := decide (c < ' ') || c = Char.ofNat 127

/-- `getScheme`: `none` is the error "missing protocol scheme"; otherwise
the scheme (possibly empty) and the rest. `seen` is what was read so far. -/
def getScheme (raw : List Char) : List Char → List Char → Option (List Char × List Char)
  | _, [] => some ([], raw)
  | seen, c :: cs =>
    if isLetter c then getScheme raw (seen ++ [c]) cs
    else if isDigit c || c = '+' || c = '-' || c = '.' then
      if seen = [] then some ([], raw) else getScheme raw (seen ++ [c]) cs
    else if c = ':' then
      if seen = [] then none else some (seen, cs)
    else some ([], raw)

/-- The characters `net/url` accepts unescaped in a host (`shouldEscape` in
host mode): letters, digits, `-_.~`, the sub-delimiters, `:[]<>`, the double
quote, and every character outside ASCII. -/
def isHostChar (c : Char) : Bool :=
  isLetter c || isDigit c || decide (128 ≤ c.toNat) ||
    ['-', '_', '.', '~', '!', '$', '&', Char.ofNat 39, '(', ')', '*', '+', ',', ';', '=', ':',
      '[', ']', '<', '>', Char.ofNat 34].contains c

/-- `parseHost` for an unbracketed host: every character must be a host
character and an optional port must be numeric. -/
def validHost (host : List Char) : Bool :=
  match host.head? with
  | some '[' => false
  | _ =>
    host.all isHostChar &&
      match lastIndex ':' host with
      | none => true
      | some i => (host.drop (i + 1)).all isDigit

/-- `parse(rawURL, false)` of `net/url`, the fragment already cut off. -/
def parseNoFragment (raw : List Char) : Option URL :=
  if raw.any isCTL || raw.contains '%' then none
  else if raw = ['*'] then some { Path := "*" }
  else
    match getScheme raw [] raw with
    | none => none
    | some (scheme0, rest0) =>
      let scheme := scheme0.map Char.toLower
      let forced := rest0.getLast? = some '?' && rest0.count '?' = 1
      let rest1 := if forced then rest0.dropLast else (cut '?' rest0).1
      let query := if forced then [] else (cut '?' rest0).2.1
      if rest1.head? ≠ some '/' && scheme ≠ [] then
        some { Scheme := String.mk scheme, Opaque := String.mk rest1,
               RawQuery := String.mk query, ForceQuery := forced }
      else if rest1.head? ≠ some '/' && (cut '/' rest1).1.contains ':' then none
      else if (scheme ≠ [] || (rest1.take 3 ≠ ['/', '/', '/'])) && rest1.take 2 = ['/', '/'] then
        let auth := rest1.drop 2
        let host := (cut '/' auth).1
        let path := auth.drop host.length
        if host.contains '@' || !validHost host then none
        else some { Scheme := String.mk scheme, Host := String.mk host, Path := String.mk path,
                    RawQuery := String.mk query, ForceQuery := forced }
      else
        some { Scheme := String.mk scheme, Path := String.mk rest1,
               RawQuery := String.mk query, ForceQuery := forced,
               OmitHost := scheme ≠ [] && rest1.head? = some '/' }

/-- `url.Parse`. -/
def parse (rawURL : String) : Option URL :=
  let c := cut '#' rawURL.data
  if c.2.1.contains '%' then none
  else
    match parseNoFragment c.1 with
    | none => none
    | some u => some { u with Fragment := String.mk c.2.1 }

/-- One round of the loop of `resolvePath`: `dst` is the builder's content,
`first` the flag of the same name. -/
def resolveElem (st : List Char × Bool) (el : List Char) : List Char × Bool :=
  if el = ['.'] then (st.1, false)
  else if el = ['.', '.'] then
    let str := st.1.drop 1
    match lastIndex '/' str with
    | none => (['/'], true)
    | some i => ('/' :: str.take i, st.2)
  else ((if st.2 then st.1 else st.1 ++ ['/']) ++ el, false)

/-- Split at every `/` (the successive `strings.Cut` calls of `resolvePath`). -/
def segments : List Char → List (List Char)
  | [] => [[]]
  | c :: cs =>
    match segments cs with
    | [] => [[c]]
    | s :: ss => if c = '/' then [] :: s :: ss else (c :: s) :: ss

/-- `resolvePath` of `net/url`. -/
def resolvePath (base ref : List Char) : List Char :=
  let full :=
    if ref = [] then base
    else if ref.head? ≠ some '/' then
      (match lastIndex '/' base with
        | none => []
        | some i => base.take (i + 1)) ++ ref
    else ref
  if full = [] then []
  else
    let segs := segments full
    let dst := (segs.foldl resolveElem (['/'], true)).1
    let last := segs.getLast?
    let dst1 := if last = some ['.'] || last = some ['.', '.'] then dst ++ ['/'] else dst
    if 1 < dst1.length && (dst1.drop 1).head? = some '/' then dst1.drop 1 else dst1

/-- `URL.ResolveReference`. -/
def resolveReference (u ref : URL) : URL :=
  let url := if ref.Scheme = "" then { ref with Scheme := u.Scheme } else ref
  if ref.Scheme ≠ "" || ref.Host ≠ "" then
    { url with Path := String.mk (resolvePath ref.Path.data []) }
  else if ref.Opaque ≠ "" then
    { url with Host := "", Path := "" }
  else
    let inherit := ref.Path = "" && !ref.ForceQuery && ref.RawQuery = ""
    let url1 := if inherit then
        { url with RawQuery := u.RawQuery,
                   Fragment := if ref.Fragment = "" then u.Fragment else url.Fragment }
      else url
    if ref.Path = "" && u.Opaque ≠ "" then
      { url1 with Opaque := u.Opaque, Host := "", Path := "" }
    else
      { url1 with Host := u.Host,
                  Path := String.mk (resolvePath u.Path.data ref.Path.data) }

/-- `URL.String`. -/
def toString (u : URL) : String :=
  let head := if u.Scheme ≠ "" then u.Scheme ++ ":" else ""
  let body :=
    if u.Opaque ≠ "" then u.Opaque
    else
      let auth :=
        if u.Scheme ≠ "" || u.Host ≠ "" then
          if u.OmitHost && u.Host = "" then ""
          else (if u.Host ≠ "" || u.Path ≠ "" then "//" else "") ++ u.Host
        else ""
      let slash := if u.Path ≠ "" && u.Path.data.head? ≠ some '/' && u.Host ≠ "" then "/" else ""
      let dot :=
        if head = "" && auth = "" && slash = "" && (cut '/' u.Path.data).1.contains ':' then "./"
        else ""
      auth ++ slash ++ dot ++ u.Path
  let query := if u.ForceQuery || u.RawQuery ≠ "" then "?" ++ u.RawQuery else ""
  let frag := if u.Fragment ≠ "" then "#" ++ u.Fragment else ""
  head ++ body ++ query ++ frag

end NetURL

/-! ## Shared state and threads -/

/-- A Go `chan string` with a buffer: `buf` is the queue, oldest first. -/
structure Chan where
  buf : List String
  closed : Bool
deriving DecidableEq

/-- Buffer size of `urlsChan` (`make(chan string, 100)`, main.go 34 and 374). -/
def chanCap : Nat := 100

/-- `VisitedURLs.IsVisited` (main.go 66-70) on the keys mapped to `true`. -/
def IsVisited (urls : List String) (url : String) : Bool := urls.contains url

/-- `VisitedURLs.Add` (main.go 72-76). -/
def Add (urls : List String) (url : String) : List String :=
  if urls.contains url then urls else urls ++ [url]

/-- Program position of a `worker` goroutine (main.go 78-123). `ch` is the
channel the `range` statement of line 80 was started on. -/
inductive WPc where
  /-- line 80, before `urlsChan` is evaluated by `range` -/
  | rangeStart
  /-- line 80, waiting for the next URL -/
  | recv (ch : Nat)
  /-- line 81, `<-rateLimiter` -/
  | rate (ch : Nat) (url : String)
  /-- lines 82-87, reading `stopped` under `stoppedMux` -/
  | chkStopped (ch : Nat) (url : String)
  /-- line 89 -/
  | isVisited (ch : Nat) (url : String)
  /-- line 93 -/
  | add (ch : Nat) (url : String)
  /-- line 97, `canFetch(url)` -/
  | robots (ch : Nat) (url : String)
  /-- line 103, `fetch(url)` -/
  | fetch (ch : Nat) (url : String)
  /-- `broadcastResult`, lines 126-128; `content` is the fetched page when the
  caller is line 111 and `none` when it is line 99 or 107 -/
  | bcastAppend (ch : Nat) (r : CrawlResult) (content : Option String)
  /-- `broadcastResult`, lines 130-140 -/
  | bcastSend (ch : Nat) (r : CrawlResult) (content : Option String)
  /-- line 113, `parseLinks(content)` -/
  | parse (ch : Nat) (content : String)
  /-- lines 118-121, the links still to push -/
  | push (ch : Nat) (links : List String)
  /-- the loop has ended and the deferred `wg.Done()` has run -/
  | done
  /-- the goroutine panicked (send on a closed channel) -/
  | panicked
deriving DecidableEq

/-- A `worker` goroutine: its arguments and its position. `run` is a ghost
field, the index of the `handleStart` call that spawned it. -/
structure Worker where
  id : Int
  visited : Nat
  baseURL : String
  run : Nat
  pc : WPc
deriving DecidableEq

/-- Program position of a `handleStart` call (main.go 325-396) after its
request has been validated. -/
inductive SPc where
  /-- lines 362-371 -/
  | stopOld
  /-- line 368, `crawlWG.Wait()` -/
  | wait
  /-- line 374 -/
  | newChan
  /-- lines 375-378 -/
  | resetResults
  /-- lines 381-383 -/
  | clearStopped (visited : Nat)
  /-- lines 387-390 -/
  | spawn (visited : Nat) (i : Nat)
  /-- line 393 -/
  | seed
  /-- the handler has returned with this status and body -/
  | finished (code : Nat) (body : String)
  /-- the handler panicked; `net/http` recovers the panic of a handler -/
  | panicked
deriving DecidableEq

/-- A `handleStart` call: `requestData.URL`, `numWorkers`, position. -/
structure Starter where
  URL : String
  numWorkers : Int
  pc : SPc
deriving DecidableEq

/-- Program position of a `handleWebSocket` call (main.go 293-323). -/
inductive CPc where
  /-- lines 301-303 -/
  | register
  /-- lines 306-311 -/
  | replay
  /-- lines 314-322 -/
  | reading
  /-- the handler has returned -/
  | closed
deriving DecidableEq

/-- A websocket connection with its handler: the messages written to it so
far, and whether a write to it fails. -/
structure Conn where
  pc : CPc
  inbox : List String
  broken : Bool
deriving DecidableEq

/-- Ghost record of what a worker did; `w` is its index in `Sys.workers`. -/
inductive Event where
  | mark (w : Nat) (url : String)
  | robots (w : Nat) (url : String)
  | fetch (w : Nat) (url : String)
  | result (w : Nat) (r : CrawlResult)
  | push (w : Nat) (url : String)
deriving DecidableEq

/-- The worker an event belongs to. -/
def Event.worker : Event → Nat
  | .mark w _ => w
  | .robots w _ => w
  | .fetch w _ => w
  | .result w _ => w
  | .push w _ => w

/-- The package variables of main.go 28-47, the heap of channels and of
`VisitedURLs` values, the goroutines, and the ghost event record.
`rateLimiter` is the number of ticks waiting in the channel of `time.Tick`
(it holds at most one). `stoppedMuxHeld` is set when a handler panicked
between `stoppedMux.Lock()` and `stoppedMux.Unlock()`. `crashed` is set when a
worker goroutine panicked, which ends the process. -/
structure Sys where
  chans : List Chan
  urlsChan : Nat
  rateLimiter : Nat
  results : List CrawlResult
  clients : List Nat
  stopped : Bool
  stoppedMuxHeld : Bool
  crawlWG : Nat
  visiteds : List (List String)
  workers : List Worker
  starters : List Starter
  conns : List Conn
  events : List Event
  crashed : Bool
deriving DecidableEq

/-- State of the process when `main` starts serving. -/
def Sys.init : Sys :=
  { chans := [⟨[], false⟩], urlsChan := 0, rateLimiter := 0, results := [], clients := [],
    stopped := false, stoppedMuxHeld := false, crawlWG := 0, visiteds := [], workers := [],
    starters := [], conns := [], events := [], crashed := false }

/-- Decoded body of a start request (main.go 332-335). -/
structure StartRequest where
  URL : String
  Workers : Int
deriving DecidableEq

/-- What the environment or the scheduler does next. -/
inductive Action where
  /-- the ticker of `time.Tick` fires -/
  | tick
  /-- worker `w` runs to its next position -/
  | worker (w : Nat)
  /-- a request for `/start` arrives; `body` is `none` when decoding fails -/
  | startReq (method : String) (body : Option StartRequest)
  /-- `handleStart` call `j` runs to its next position -/
  | starter (j : Nat)
  /-- a request for `/stop` arrives and `handleStop` runs -/
  | stopReq (method : String)
  /-- a websocket client connects and the upgrade succeeds -/
  | wsConnect
  /-- `handleWebSocket` call `c` runs to its next position -/
  | ws (c : Nat)
  /-- `ReadMessage` of connection `c` fails (the peer went away) -/
  | wsClose (c : Nat)
  /-- connection `c` breaks: writes to it fail from now on -/
  | connBreak (c : Nat)
deriving DecidableEq

/-! ## Steps -/

/-- Move worker `w` to position `pc`. -/
def Sys.setPc (s : Sys) (w : Nat) (wk : Worker) (pc : WPc) : Sys :=
  { s with workers := s.workers.set w { wk with pc := pc } }

/-- The loop of `broadcastResult` (main.go 133-140) over the members `todo` of
the client set: a write to a broken connection fails, and the connection is
deleted from the set. -/
def deliver (msg : String) : List Nat → List Nat × List Conn → List Nat × List Conn
  | [], acc => acc
  | c :: todo, acc =>
    match acc.2[c]? with
    | none => deliver msg todo acc
    | some cn =>
      if cn.broken then deliver msg todo (acc.1.erase c, acc.2)
      else deliver msg todo (acc.1, acc.2.set c { cn with inbox := cn.inbox ++ [msg] })

/-- One step of the goroutine `worker(id, wg, visited, baseURL)` with index
`w`; `none` when the goroutine is blocked or has ended. -/
def worker (env : Env) (w : Nat) (wk : Worker) (s : Sys) : Option Sys :=
  match wk.pc with
  | .rangeStart => some (s.setPc w wk (.recv s.urlsChan))
  | .recv ch =>
    match s.chans[ch]? with
    | none => none
    | some c =>
      match c.buf with
      | url :: rest =>
        some { s.setPc w wk (.rate ch url) with chans := s.chans.set ch { c with buf := rest } }
      | [] =>
        if c.closed then some { s.setPc w wk .done with crawlWG := s.crawlWG - 1 } else none
  | .rate ch url =>
    if 0 < s.rateLimiter then
      some { s.setPc w wk (.chkStopped ch url) with rateLimiter := s.rateLimiter - 1 }
    else none
  | .chkStopped ch url =>
    if s.stoppedMuxHeld then none
    else if s.stopped then some (s.setPc w wk (.recv ch))
    else some (s.setPc w wk (.isVisited ch url))
  | .isVisited ch url =>
    match s.visiteds[wk.visited]? with
    | none => none
    | some v =>
      if IsVisited v url then some (s.setPc w wk (.recv ch))
      else some (s.setPc w wk (.add ch url))
  | .add ch url =>
    match s.visiteds[wk.visited]? with
    | none => none
    | some v =>
      some { s.setPc w wk (.robots ch url) with
             visiteds := s.visiteds.set wk.visited (Add v url),
             events := s.events ++ [.mark w url] }
  | .robots ch url =>
    if env.canFetch url then
      some { s.setPc w wk (.fetch ch url) with events := s.events ++ [.robots w url] }
    else
      some { s.setPc w wk (.bcastAppend ch ⟨url, wk.id, "Blocked by robots.txt"⟩ none) with
             events := s.events ++ [.robots w url] }
  | .fetch ch url =>
    match env.fetch url with
    | .error err =>
      some { s.setPc w wk (.bcastAppend ch ⟨url, wk.id, "Fetch error: " ++ err⟩ none) with
             events := s.events ++ [.fetch w url] }
    | .ok content =>
      some { s.setPc w wk (.bcastAppend ch ⟨url, wk.id, "Success"⟩ (some content)) with
             events := s.events ++ [.fetch w url] }
  | .bcastAppend ch r content =>
    some { s.setPc w wk (.bcastSend ch r content) with
           results := s.results ++ [r],
           events := s.events ++ [.result w r] }
  | .bcastSend ch r content =>
    let d := deliver (env.marshal r) s.clients (s.clients, s.conns)
    let pc := match content with
      | none => WPc.recv ch
      | some page => WPc.parse ch page
    some { s.setPc w wk pc with clients := d.1, conns := d.2 }
  | .parse ch content =>
    match env.parseLinks content with
    | .error _ => some (s.setPc w wk (.recv ch))
    | .ok links => some (s.setPc w wk (.push ch links))
  | .push ch [] => some (s.setPc w wk (.recv ch))
  | .push ch (link :: rest) =>
    match s.chans[s.urlsChan]? with
    | none => none
    | some c =>
      if c.closed then some { s.setPc w wk .panicked with crashed := true }
      else if c.buf.length < chanCap then
        let absoluteURL := normalizeURL env link wk.baseURL
        some { s.setPc w wk (.push ch rest) with
               chans := s.chans.set s.urlsChan { c with buf := c.buf ++ [absoluteURL] },
               events := s.events ++ [.push w absoluteURL] }
      else none
  | .done => none
  | .panicked => none

/-- The part of `handleStart` before it touches shared state (main.go
326-359): the response of a rejected request, or the seed URL and
`numWorkers` of an accepted one. `http.Error` ends the body with a newline. -/
def validateStart (env : Env) (method : String) (body : Option StartRequest) :
    Except (Nat × String) (String × Int) :=
  if method ≠ "POST" then .error (405, "Method not allowed\n")
  else
    match body with
    | none => .error (400, "Invalid request body\n")
    | some requestData =>
      if requestData.URL = "" then .error (400, "URL is required\n")
      else
        match env.urlParse requestData.URL with
        | none => .error (400, "Invalid URL. Must be a valid http or https URL\n")
        | some parsedURL =>
          if parsedURL.Scheme ≠ "http" ∧ parsedURL.Scheme ≠ "https" then
            .error (400, "Invalid URL. Must be a valid http or https URL\n")
          else
            .ok (requestData.URL, if requestData.Workers ≤ 0 then 10 else requestData.Workers)

/-- The `handleStart` call a request creates. -/
def newStarter (env : Env) (method : String) (body : Option StartRequest) : Starter :=
  match validateStart env method body with
  | .error resp => ⟨"", 0, .finished resp.1 resp.2⟩
  | .ok req => ⟨req.1, req.2, .stopOld⟩

/-- Move `handleStart` call `j` to position `pc`. -/
def Sys.setStarter (s : Sys) (j : Nat) (st : Starter) (pc : SPc) : Sys :=
  { s with starters := s.starters.set j { st with pc := pc } }

/-- One step of `handleStart` call `j` (main.go 361-395); `none` when it is
blocked or has returned. -/
def handleStart (j : Nat) (st : Starter) (s : Sys) : Option Sys :=
  match st.pc with
  | .stopOld =>
    if s.stoppedMuxHeld then none
    else if !s.stopped then
      match s.chans[s.urlsChan]? with
      | none => none
      | some c =>
        if c.closed then
          some { s.setStarter j st .panicked with stopped := true, stoppedMuxHeld := true }
        else
          some { s.setStarter j st .wait with
                 stopped := true,
                 chans := s.chans.set s.urlsChan { c with closed := true } }
    else some (s.setStarter j st .newChan)
  | .wait => if s.crawlWG = 0 then some (s.setStarter j st .newChan) else none
  | .newChan =>
    some { s.setStarter j st .resetResults with
           chans := s.chans ++ [⟨[], false⟩],
           urlsChan := s.chans.length }
  | .resetResults =>
    some { s.setStarter j st (.clearStopped s.visiteds.length) with
           results := [],
           visiteds := s.visiteds ++ [[]] }
  | .clearStopped visited =>
    if s.stoppedMuxHeld then none
    else some { s.setStarter j st (.spawn visited 0) with stopped := false }
  | .spawn visited i =>
    if (i : Int) < st.numWorkers then
      some { s.setStarter j st (.spawn visited (i + 1)) with
             crawlWG := s.crawlWG + 1,
             workers := s.workers ++ [⟨(i : Int), visited, st.URL, j, .rangeStart⟩] }
    else some (s.setStarter j st .seed)
  | .seed =>
    match s.chans[s.urlsChan]? with
    | none => none
    | some c =>
      if c.closed then some (s.setStarter j st .panicked)
      else if c.buf.length < chanCap then
        some { s.setStarter j st (.finished 200 "Crawler started") with
               chans := s.chans.set s.urlsChan { c with buf := c.buf ++ [st.URL] } }
      else none
  | .finished _ _ => none
  | .panicked => none

/-- How a handler call that runs in one piece ends. -/
inductive Outcome where
  /-- it returned normally, leaving this state and this response -/
  | returned (s : Sys) (code : Nat) (body : String)
  /-- it panicked, leaving this state -/
  | panicked (s : Sys)
  /-- it cannot proceed -/
  | blocked
deriving DecidableEq

/-- `handleStop` (main.go 398-411). `close` of a closed channel panics; the
panic leaves `stoppedMux` locked, since `Unlock` (line 408) is not deferred. -/
def handleStop (method : String) (s : Sys) : Outcome :=
  if method ≠ "POST" then .returned s 405 "Method not allowed\n"
  else if s.stoppedMuxHeld then .blocked
  else if !s.stopped then
    match s.chans[s.urlsChan]? with
    | none => .blocked
    | some c =>
      if c.closed then .panicked { s with stopped := true, stoppedMuxHeld := true }
      else
        .returned { s with stopped := true,
                           chans := s.chans.set s.urlsChan { c with closed := true } }
          200 "Crawler stopped"
  else .returned s 200 "Crawler stopped"

/-- One step of `handleWebSocket` call `c` (main.go 301-311). The replay
runs in one piece; failed writes are ignored by the code. The replay holds
`results`, the send loop of `broadcastResult` holds `clientsMux`, so in the
code their writes to one connection can overlap, which `gorilla/websocket`
does not support; here each of the two is one step, and that overlap is not
modelled. -/
def handleWebSocket (env : Env) (c : Nat) (cn : Conn) (s : Sys) : Option Sys :=
  match cn.pc with
  | .register =>
    some { s with clients := if s.clients.contains c then s.clients else s.clients ++ [c],
                  conns := s.conns.set c { cn with pc := .replay } }
  | .replay =>
    let sent := if cn.broken then [] else s.results.map env.marshal
    some { s with conns := s.conns.set c { cn with pc := .reading, inbox := cn.inbox ++ sent } }
  | .reading => none
  | .closed => none

/-- One step of the whole system; `none` when the action is not possible in
this state (the thread is blocked, has ended or does not exist, or the
process has crashed). -/
def step (env : Env) (a : Action) (s : Sys) : Option Sys :=
  if s.crashed then none
  else
    match a with
    | .tick => some { s with rateLimiter := 1 }
    | .worker w =>
      match s.workers[w]? with
      | none => none
      | some wk => worker env w wk s
    | .startReq method body => some { s with starters := s.starters ++ [newStarter env method body] }
    | .starter j =>
      match s.starters[j]? with
      | none => none
      | some st => handleStart j st s
    | .stopReq method =>
      match handleStop method s with
      | .returned s1 _ _ => some s1
      | .panicked s1 => some s1
      | .blocked => none
    | .wsConnect => some { s with conns := s.conns ++ [⟨.register, [], false⟩] }
    | .ws c =>
      match s.conns[c]? with
      | none => none
      | some cn => handleWebSocket env c cn s
    | .wsClose c =>
      match s.conns[c]? with
      | none => none
      | some cn =>
        if cn.pc = .reading then
          some { s with clients := s.clients.erase c,
                        conns := s.conns.set c { cn with pc := .closed } }
        else none
    | .connBreak c =>
      match s.conns[c]? with
      | none => none
      | some cn => some { s with conns := s.conns.set c { cn with broken := true } }

/-- Run an interleaving; `none` when one of its actions is not possible. -/
def run (env : Env) : List Action → Sys → Option Sys
  | [], s => some s
  | a :: rest, s =>
    match step env a s with
    | none => none
    | some s1 => run env rest s1

/-- Let worker `w` take `n` steps in a row. -/
def runWorker (env : Env) (w : Nat) (n : Nat) (s : Sys) : Option Sys :=
  run env (List.replicate n (.worker w)) s

/-! ## A concrete environment

A site of a few pages on `example.com`, used for the concrete scenarios. -/

/-- The pages of the site: their content, or the error of the transport. -/
def siteFetch (url : String) : Except String String :=
  if url = "https://example.com" then .ok "home"
  else if url = "https://example.com/a" then .ok "page a"
  else if url = "https://example.com/b" then .ok "page b"
  else if url = "https://example.com/u" then .ok "page u"
  else if url = "https://example.com/wide" then .ok "wide"
  else if url = "https://example.com/junk" then .ok "junk"
  else .error "404 Not Found"

/-- The links of each page; the page `wide` has 101 links. -/
def siteLinks (content : String) : Except String (List String) :=
  if content = "home" then .ok ["/a", "https://example.com/b"]
  else if content = "page a" then .ok ["/u"]
  else if content = "page b" then .ok ["/u"]
  else if content = "page u" then .ok []
  else if content = "wide" then .ok (List.replicate 101 "/u")
  else .error "malformed HTML"

/-- A stand-in for `json.Marshal` that keeps the three modelled fields. -/
def siteMarshal (r : CrawlResult) : String :=
  "url=" ++ r.URL ++ " worker_id=" ++ toString r.WorkerID ++ " status=" ++ r.Status

/-- The site, with `/private` disallowed by its robots.txt. -/
def site : Env :=
  { canFetch := fun url => url != "https://example.com/private"
    fetch := siteFetch
    parseLinks := siteLinks
    urlParse := NetURL.parse
    resolveReference := NetURL.resolveReference
    urlString := NetURL.toString
    marshal := siteMarshal }

/-- The actions of a `/start` request that runs to its end undisturbed with
`n` workers: the request, then steps 362-393 of the handler `j`. When the
stop flag was set before, the handler skips `crawlWG.Wait()` and takes one
step less (`afterStop`). -/
def startActions (j : Nat) (url : String) (workers : Int) (n : Nat) (afterStop : Bool) :
    List Action :=
  .startReq "POST" (some ⟨url, workers⟩) ::
    List.replicate (n + (if afterStop then 6 else 7)) (.starter j)

/-- The actions of worker `w` for `n` steps, with a tick of the rate limiter
before them. -/
def workerActions (w n : Nat) : List Action :=
  .tick :: List.replicate n (.worker w)

/-! ## Observations on a state -/

/-- How often the transport was called for `url`. -/
def fetchCount (url : String) (s : Sys) : Nat :=
  (s.events.filter (fun e => match e with
    | .fetch _ v => v = url
    | _ => false)).length

/-- The URLs pushed to the frontier by workers, in order. -/
def pushed (s : Sys) : List String :=
  s.events.filterMap (fun e => match e with
    | .push _ v => some v
    | _ => none)

/-- The events of worker `w`. -/
def eventsOf (w : Nat) (evs : List Event) : List Event :=
  evs.filter (fun e => e.worker = w)

/-- The worker goroutine has neither left its loop nor panicked. -/
def Worker.alive (wk : Worker) : Bool :=
  wk.pc ≠ .done && wk.pc ≠ .panicked

/-- Positions of a worker that holds no URL past the stop check of lines
82-87: before the loop, waiting for a URL, holding a URL it
has not admitted yet, or ended. -/
def preAdmission : WPc → Bool
  | .rangeStart => true
  | .recv _ => true
  | .rate _ _ => true
  | .chkStopped _ _ => true
  | .done => true
  | _ => false

/-- The stop flag is set in every state of the run of `sched` from `s`. -/
def stoppedAlong (env : Env) : List Action → Sys → Bool
  | [], s => s.stopped
  | a :: rest, s =>
    s.stopped &&
      match step env a s with
      | none => true
      | some s1 => stoppedAlong env rest s1

/-! ## One iteration, in the words of the claims -/

/-- The result a worker with id `id` is to record for an admitted URL `u`,
and the page it goes on to parse, if any: "Blocked by robots.txt" when the
robots policy refuses `u`, "Fetch error: " and the error text when the fetch
fails, "Success" and the content when it succeeds. -/
def expectedResult (env : Env) (id : Int) (u : String) : CrawlResult × Option String :=
  if env.canFetch u then
    match env.fetch u with
    | .error err => (⟨u, id, "Fetch error: " ++ err⟩, none)
    | .ok content => (⟨u, id, "Success"⟩, some content)
  else (⟨u, id, "Blocked by robots.txt"⟩, none)

/-- What worker `w` is to do for an admitted URL `u` before it records the
result: mark it visited, ask the robots policy, and call the transport only
when the policy allows it. -/
def expectedCalls (env : Env) (w : Nat) (u : String) : List Event :=
  if env.canFetch u then [.mark w u, .robots w u, .fetch w u] else [.mark w u, .robots w u]

/-- The links to expand for an admitted URL `u`: those `parseLinks` returns
for the fetched page; none when `u` is blocked, its fetch fails or parsing
fails. -/
def expectedLinks (env : Env) (u : String) : List String :=
  match (expectedResult env 0 u).2 with
  | none => []
  | some content =>
    match env.parseLinks content with
    | .error _ => []
    | .ok links => links

/-- The events of an iteration up to and including the result. -/
def expectedHead (env : Env) (w : Nat) (id : Int) (u : String) : List Event :=
  expectedCalls env w u ++ [.result w (expectedResult env id u).1]

/-- The push events of worker `w` for the links `links`, resolved against
`base`. -/
def pushEvents (env : Env) (w : Nat) (base : String) (links : List String) : List Event :=
  links.map (fun l => .push w (normalizeURL env l base))

/-- The events `evs` worker `w` (with the arguments of `wk`, started on
channel `ch`) has recorded since it admitted `u` at line 89, when it stands
at position `pc`. Positions outside the iteration admit no record. -/
def IterTrace (env : Env) (w : Nat) (wk : Worker) (ch : Nat) (u : String) :
    WPc → List Event → Prop
  | .add c v, evs => c = ch ∧ v = u ∧ evs = []
  | .robots c v, evs => c = ch ∧ v = u ∧ evs = [.mark w u]
  | .fetch c v, evs => c = ch ∧ v = u ∧ env.canFetch u = true ∧ evs = [.mark w u, .robots w u]
  | .bcastAppend c r k, evs =>
    c = ch ∧ (r, k) = expectedResult env wk.id u ∧ evs = expectedCalls env w u
  | .bcastSend c r k, evs =>
    c = ch ∧ (r, k) = expectedResult env wk.id u ∧ evs = expectedHead env w wk.id u
  | .parse c content, evs =>
    c = ch ∧ (expectedResult env wk.id u).2 = some content ∧ evs = expectedHead env w wk.id u
  | .push c rest, evs =>
    c = ch ∧ ∃ pushedLinks, pushedLinks ++ rest = expectedLinks env u ∧
      evs = expectedHead env w wk.id u ++ pushEvents env w wk.baseURL pushedLinks
  | .recv c, evs =>
    c = ch ∧ evs = expectedHead env w wk.id u ++ pushEvents env w wk.baseURL (expectedLinks env u)
  | .panicked, evs =>
    ∃ pushedLinks rest, rest ≠ [] ∧ pushedLinks ++ rest = expectedLinks env u ∧
      evs = expectedHead env w wk.id u ++ pushEvents env w wk.baseURL pushedLinks
  | _, _ => False

/-- In the run of `sched` from `s`, worker `w` takes no step from the head of
its loop: the run stays within the iteration `w` is in. -/
def noDequeue (env : Env) (w : Nat) : List Action → Sys → Bool
  | [], _ => true
  | a :: rest, s =>
    (match a, s.workers[w]? with
      | .worker j, some wk => !(decide (j = w) && (wk.pc matches .recv _))
      | _, _ => true) &&
      match step env a s with
      | none => true
      | some s1 => noDequeue env w rest s1

/-- The URLs of the push events in `evs`, in order. -/
def pushesIn (evs : List Event) : List String :=
  evs.filterMap (fun e => match e with
    | .push _ v => some v
    | _ => none)

/-- Positions between the stop check and the end of `broadcastResult` and
`parseLinks`: the worker waits for nothing there. -/
def midIteration : WPc → Bool
  | .isVisited _ _ => true
  | .add _ _ => true
  | .robots _ _ => true
  | .fetch _ _ => true
  | .bcastAppend _ _ _ => true
  | .bcastSend _ _ _ => true
  | .parse _ _ => true
  | _ => false

/-! ## Scenarios -/

/-- Two workers; the seed links to `/a` and `/b`, both of which link to `/u`,
so `/u` is queued twice. Both workers dequeue a copy, both pass line 89
before either reaches line 93, and both go on. -/
def dedupRace : List Action :=
  startActions 0 "https://example.com" 2 2 false
    ++ workerActions 0 14 ++ workerActions 0 12 ++ workerActions 1 13
    ++ [.worker 0, .worker 1, .tick, .worker 0, .tick, .worker 1,
        .worker 0, .worker 1, .worker 0, .worker 1]
    ++ List.replicate 5 (.worker 0) ++ List.replicate 5 (.worker 1)

/-- Start, stop, start: the worker of the first start has dequeued the seed
and waits for the rate limiter when `/stop` and the second `/start` arrive;
the second handler runs up to its first `go worker`. -/
def restartEarly : List Action :=
  startActions 0 "https://example.com" 1 1 false
    ++ [.worker 0, .worker 0, .stopReq "POST",
        .startReq "POST" (some ⟨"https://example.com/b", 1⟩)]
    ++ List.replicate 5 (.starter 1)

/-- The continuation of `restartEarly`: the second handler finishes and both
workers reach the transport. -/
def restartBoth : List Action :=
  restartEarly ++ [.starter 1, .starter 1] ++ workerActions 0 6 ++ workerActions 1 8

/-- A worker has fetched the seed and pushed the first of its two links when
`/stop` closes the frontier; then it pushes the second. -/
def pushAfterStop : List Action :=
  startActions 0 "https://example.com" 1 1 false
    ++ workerActions 0 12 ++ [.stopReq "POST", .worker 0]

/-- Start, stop, start as in `restartEarly`; after the second start has
returned, the worker of the first start records its result, and then an
observer subscribes. -/
def leakAcrossRuns : List Action :=
  startActions 0 "https://example.com" 1 1 false
    ++ [.worker 0, .worker 0, .stopReq "POST"]
    ++ startActions 1 "https://example.com/b" 1 1 true
    ++ workerActions 0 7 ++ [.wsConnect, .ws 0, .ws 0]

/-- One result is recorded; a subscriber is registered (line 302); the worker
records and broadcasts a second result; only then the replay (lines 306-311)
runs. -/
def replayRace : List Action :=
  startActions 0 "https://example.com" 1 1 false ++ workerActions 0 10
    ++ [.wsConnect, .ws 0]
    ++ List.replicate 4 (.worker 0) ++ workerActions 0 9 ++ [.ws 0]

/-- The state in which the only worker of a Run seeded with the home page
has marked the seed visited and is about to ask the robots policy. -/
def homeState : Sys :=
  (run site (startActions 0 "https://example.com" 1 1 false ++ workerActions 0 6) Sys.init).getD
    Sys.init

/-- One worker, seeded with the page that has 101 links: the worker fetches
it and takes 100 more steps. -/
def wideRun : List Action :=
  startActions 0 "https://example.com/wide" 1 1 false ++ workerActions 0 111

/-- The state right after a stop that followed a start, with the worker of
the stopped Run still alive. -/
def stoppedState : Sys :=
  (run site (startActions 0 "https://example.com" 1 1 false ++ [.worker 0, .stopReq "POST"])
    Sys.init).getD Sys.init

/-- The state in which the only worker of a Run seeded with `url` has found
the seed absent from the dedup store (line 89) and is about to mark it. -/
def admitState (url : String) : Sys :=
  (run site (startActions 0 url 1 1 false ++ workerActions 0 5) Sys.init).getD Sys.init

/-- The worker handles the admitted seed up to the end of `broadcastResult`
while a subscriber connects, registers and is replayed the log. -/
def iterationActions : List Action :=
  [.worker 0, .wsConnect, .worker 0, .ws 0, .tick, .worker 0, .worker 0, .ws 0, .worker 0]

/-- The worker expands the admitted home page while ticks arrive and a
subscriber connects. -/
def expansionActions : List Action :=
  [.worker 0, .tick, .worker 0, .worker 0, .wsConnect, .worker 0, .worker 0, .ws 0,
   .worker 0, .worker 0, .tick, .worker 0, .worker 0]

/-- Start with one worker, then stop; the worker enters its loop and
dequeues the seed, which is still buffered in the closed frontier, while the
stop flag is set. The first 11 actions end right before that dequeue. -/
def restartAfterDequeue : List Action :=
  startActions 0 "https://example.com" 1 1 false ++ [.stopReq "POST", .worker 0, .worker 0]

/-- The continuation of `restartAfterDequeue`: a second start runs to its end
while the worker waits for the rate limiter; then the worker goes on. -/
def restartClearsFlag : List Action :=
  restartAfterDequeue ++ startActions 1 "https://example.com/b" 1 1 true ++ workerActions 0 12

end Crawler

namespace Crawler

/-! ## Auxiliary facts -/

theorem isVisited_add (v : List String) (u : String) : IsVisited (Add v u) u = true := by
  simp only [IsVisited, Add]
  split <;> simp_all

theorem lookup_lt {α : Type} {l : List α} {i : Nat} {a : α} (h : l[i]? = some a) :
    i < l.length := by
  rcases List.getElem?_eq_some.mp h with ⟨h1, _⟩
  exact h1

theorem set_lookup_self {α : Type} {l : List α} {i : Nat} {a : α} (h : l[i]? = some a) :
    l.set i a = l := by
  induction l generalizing i with
  | nil => rfl
  | cons x xs ih =>
    cases i with
    | zero => simp at h; simp [h]
    | succ k => simp at h; simp [ih h]

theorem runWorker_succ (env : Env) (w n : Nat) (s s1 : Sys)
    (h : step env (.worker w) s = some s1) :
    runWorker env w (n + 1) s = runWorker env w n s1 := by
  simp [runWorker, List.replicate, run, h]

theorem runWorker_add (env : Env) (w m n : Nat) (s s1 : Sys)
    (h : runWorker env w m s = some s1) :
    runWorker env w (m + n) s = runWorker env w n s1 := by
  induction m generalizing s with
  | zero =>
    simp [runWorker, run] at h
    simp [h]
  | succ k ih =>
    simp only [runWorker, List.replicate, run] at h
    cases hs : step env (.worker w) s with
    | none => simp [hs] at h
    | some s2 =>
      simp only [hs] at h
      have := ih s2 h
      rw [show k + 1 + n = (k + n) + 1 by omega]
      simp only [runWorker, List.replicate, run, hs]
      exact this

/-- The loop of lines 118-121 on an open frontier with room for all links. -/
theorem push_loop (env : Env) (w ch : Nat) (links : List String) :
    ∀ (s : Sys) (wk : Worker) (c : Chan), s.crashed = false → s.workers[w]? = some wk →
      wk.pc = .push ch links → s.chans[s.urlsChan]? = some c → c.closed = false →
      c.buf.length + links.length ≤ chanCap →
      runWorker env w (links.length + 1) s = some
        { s with
          workers := s.workers.set w { wk with pc := .recv ch }
          chans := s.chans.set s.urlsChan
            { c with buf := c.buf ++ links.map (fun l => normalizeURL env l wk.baseURL) }
          events := s.events ++ links.map (fun l => .push w (normalizeURL env l wk.baseURL)) } := by
  induction links with
  | nil =>
    intro s wk c hcr hw hpc hc hopen hroom
    simp [runWorker, List.replicate, run, step, worker, hcr, hw, hpc, Sys.setPc,
      set_lookup_self hc]
  | cons l rest ih =>
    intro s wk c hcr hw hpc hc hopen hroom
    have hlt : w < s.workers.length := lookup_lt hw
    have hlc : s.urlsChan < s.chans.length := lookup_lt hc
    simp only [List.length_cons] at hroom
    have hroom1 : c.buf.length < chanCap := by omega
    have hstep : step env (.worker w) s = some
        { s with
          workers := s.workers.set w { wk with pc := .push ch rest }
          chans := s.chans.set s.urlsChan { c with buf := c.buf ++ [normalizeURL env l wk.baseURL] }
          events := s.events ++ [.push w (normalizeURL env l wk.baseURL)] } := by
      simp [step, worker, hcr, hw, hpc, hc, hopen, hroom1, Sys.setPc]
    have h1 := ih
      { s with
          workers := s.workers.set w { wk with pc := .push ch rest }
          chans := s.chans.set s.urlsChan { c with buf := c.buf ++ [normalizeURL env l wk.baseURL] }
          events := s.events ++ [.push w (normalizeURL env l wk.baseURL)] }
      { wk with pc := .push ch rest }
      { c with buf := c.buf ++ [normalizeURL env l wk.baseURL] } hcr
      (by simp [hlt]) rfl (by simp [hlc]) hopen
      (by simp; omega)
    rw [show (l :: rest).length + 1 = (rest.length + 1) + 1 by simp]
    rw [runWorker_succ env w _ s _ hstep, h1]
    simp [List.set_set]

theorem pushes_of_map (w : Nat) (f : String → String) (links : List String) :
    (links.map (fun l => Event.push w (f l))).filterMap (fun e => match e with
      | .push _ v => some v
      | _ => none) = links.map f := by
  induction links with
  | nil => rfl
  | cons l rest ih => simp [List.filterMap_cons, ih]

/-! ### Frame facts for a stopped system -/

theorem worker_other_step (env : Env) (s s1 : Sys) (j w : Nat) (wkj : Worker) (hne : j ≠ w)
    (h : worker env j wkj s = some s1) :
    s1.workers[w]? = s.workers[w]? ∧ eventsOf w s1.events = eventsOf w s.events := by
  unfold worker at h
  repeat' split at h
  all_goals
    cases h <;> simp [Sys.setPc, hne, eventsOf, Event.worker, List.filter_append]

theorem worker_self_step (env : Env) (s s1 : Sys) (w : Nat) (wk : Worker)
    (hs : s.stopped = true) (hw : s.workers[w]? = some wk) (hpre : preAdmission wk.pc = true)
    (h : worker env w wk s = some s1) :
    ∃ wk1, s1.workers[w]? = some wk1 ∧ preAdmission wk1.pc = true ∧ s1.events = s.events := by
  have hlt : w < s.workers.length := lookup_lt hw
  unfold worker at h
  repeat' split at h
  all_goals
    cases h <;> simp_all [Sys.setPc, preAdmission]

theorem starter_step_frame (s s1 : Sys) (j : Nat) (st : Starter) (w : Nat) (wk : Worker)
    (hw : s.workers[w]? = some wk) (h : handleStart j st s = some s1) :
    s1.workers[w]? = some wk ∧ s1.events = s.events := by
  have hlt : w < s.workers.length := lookup_lt hw
  unfold handleStart at h
  repeat' split at h
  all_goals
    cases h <;> simp [Sys.setStarter, hw, List.getElem?_append_left hlt]

theorem handleStop_frame (method : String) (s s1 : Sys) :
    (∀ code body, handleStop method s = .returned s1 code body →
      s1.workers = s.workers ∧ s1.events = s.events) ∧
    (handleStop method s = .panicked s1 → s1.workers = s.workers ∧ s1.events = s.events) := by
  refine ⟨?_, ?_⟩
  · intro code body h
    unfold handleStop at h
    repeat' split at h
    all_goals
      cases h <;> simp
  · intro h
    unfold handleStop at h
    repeat' split at h
    all_goals
      cases h <;> simp

theorem other_step_frame (env : Env) (a : Action) (s s1 : Sys) (w : Nat) (wk : Worker)
    (ha : ∀ j, a ≠ .worker j) (hw : s.workers[w]? = some wk) (h : step env a s = some s1) :
    s1.workers[w]? = some wk ∧ s1.events = s.events := by
  unfold step at h
  split at h
  · cases h
  · cases a with
    | worker j => exact absurd rfl (ha j)
    | starter j =>
      simp only at h
      split at h
      · cases h
      · exact starter_step_frame s s1 j _ w wk hw h
    | stopReq method =>
      have hf := handleStop_frame method s s1
      simp only at h
      split at h
      · rename_i heq
        cases h
        simp [hf.1 _ _ heq, hw]
      · rename_i heq
        cases h
        simp [hf.2 heq, hw]
      · cases h
    | ws c =>
      simp only [handleWebSocket] at h
      repeat' split at h
      all_goals
        cases h <;> simp [hw]
    | wsClose c =>
      simp only at h
      repeat' split at h
      all_goals
        cases h <;> simp [hw]
    | connBreak c =>
      simp only at h
      repeat' split at h
      all_goals
        cases h <;> simp [hw]
    | tick => cases h; simp [hw]
    | startReq method body => cases h; simp [hw]
    | wsConnect => cases h; simp [hw]


theorem step_keeps_preAdmission (env : Env) (a : Action) (s s1 : Sys) (w : Nat) (wk : Worker)
    (hs : s.stopped = true) (hw : s.workers[w]? = some wk) (hpre : preAdmission wk.pc = true)
    (h : step env a s = some s1) :
    ∃ wk1, s1.workers[w]? = some wk1 ∧ preAdmission wk1.pc = true ∧
      eventsOf w s1.events = eventsOf w s.events := by
  by_cases ha : ∃ j, a = .worker j
  · obtain ⟨j, rfl⟩ := ha
    have h0 := h
    unfold step at h
    split at h
    · cases h
    · simp only at h
      split at h
      · cases h
      · rename_i wkj hj
        by_cases hjw : j = w
        · subst hjw
          rw [hw] at hj
          cases hj
          obtain ⟨wk1, h1, h2, h3⟩ := worker_self_step env s s1 j wk hs hw hpre h
          exact ⟨wk1, h1, h2, by rw [h3]⟩
        · obtain ⟨h1, h2⟩ := worker_other_step env s s1 j w wkj hjw h
          exact ⟨wk, by rw [h1, hw], hpre, h2⟩
  · have ha1 : ∀ j, a ≠ .worker j := fun j hj => ha ⟨j, hj⟩
    obtain ⟨h1, h2⟩ := other_step_frame env a s s1 w wk ha1 hw h
    exact ⟨wk, h1, hpre, by rw [h2]⟩

theorem run_keeps_preAdmission (env : Env) (sched : List Action) :
    ∀ (s s1 : Sys) (w : Nat) (wk : Worker), run env sched s = some s1 →
      stoppedAlong env sched s = true → s.workers[w]? = some wk → preAdmission wk.pc = true →
      ∃ wk1, s1.workers[w]? = some wk1 ∧ preAdmission wk1.pc = true ∧
        eventsOf w s1.events = eventsOf w s.events := by
  induction sched with
  | nil =>
    intro s s1 w wk h _ hw hpre
    simp only [run, Option.some.injEq] at h
    subst h
    exact ⟨wk, hw, hpre, rfl⟩
  | cons a rest ih =>
    intro s s1 w wk h hst hw hpre
    simp only [run] at h
    simp only [stoppedAlong, Bool.and_eq_true] at hst
    cases hstep : step env a s with
    | none => simp [hstep] at h
    | some s2 =>
      simp only [hstep] at h hst
      obtain ⟨wk2, hw2, hpre2, hev2⟩ := step_keeps_preAdmission env a s s2 w wk hst.1 hw hpre hstep
      obtain ⟨wk1, hw1, hpre1, hev1⟩ := ih s2 s1 w wk2 h hst.2 hw2 hpre2
      exact ⟨wk1, hw1, hpre1, by rw [hev1, hev2]⟩

/-! ### One iteration under every interleaving -/

theorem expectedResult_id (env : Env) (id : Int) (u : String) :
    (expectedResult env id u).2 = (expectedResult env 0 u).2 := by
  unfold expectedResult
  split
  · split <;> rfl
  · rfl

theorem iter_self_step (env : Env) (s s1 : Sys) (w : Nat) (wk : Worker) (ch : Nat) (u : String)
    (pc : WPc) (evs : List Event)
    (hw : s.workers[w]? = some { wk with pc := pc })
    (ht : IterTrace env w wk ch u pc evs) (hrecv : ∀ c, pc ≠ .recv c)
    (h : worker env w { wk with pc := pc } s = some s1) :
    ∃ pc1 new, s1.workers[w]? = some { wk with pc := pc1 } ∧
      s1.events = s.events ++ new ∧ eventsOf w new = new ∧
      IterTrace env w wk ch u pc1 (evs ++ new) := by
  have hlt : w < s.workers.length := lookup_lt hw
  cases pc with
  | rangeStart => exact absurd ht (by simp [IterTrace])
  | recv c => exact absurd rfl (hrecv c)
  | rate c v => exact absurd ht (by simp [IterTrace])
  | chkStopped c v => exact absurd ht (by simp [IterTrace])
  | isVisited c v => exact absurd ht (by simp [IterTrace])
  | done => exact absurd ht (by simp [IterTrace])
  | panicked => simp [worker] at h
  | add c v =>
    simp only [IterTrace] at ht
    obtain ⟨rfl, rfl, rfl⟩ := ht
    simp only [worker] at h
    split at h
    · cases h
    · cases h
      exact ⟨.robots c v, [.mark w v], by simp [Sys.setPc, hlt], rfl,
        by simp [eventsOf, Event.worker], by simp [IterTrace]⟩
  | robots c v =>
    simp only [IterTrace] at ht
    obtain ⟨rfl, rfl, rfl⟩ := ht
    simp only [worker] at h
    split at h
    · rename_i hcan
      cases h
      exact ⟨.fetch c v, [.robots w v], by simp [Sys.setPc, hlt], rfl,
        by simp [eventsOf, Event.worker], by simp [IterTrace, hcan]⟩
    · rename_i hcan
      cases h
      exact ⟨.bcastAppend c ⟨v, wk.id, "Blocked by robots.txt"⟩ none, [.robots w v],
        by simp [Sys.setPc, hlt], rfl, by simp [eventsOf, Event.worker],
        by simp [IterTrace, expectedResult, expectedCalls, hcan]⟩
  | fetch c v =>
    simp only [IterTrace] at ht
    obtain ⟨rfl, rfl, hcan, rfl⟩ := ht
    simp only [worker] at h
    split at h
    · rename_i err hf
      cases h
      exact ⟨.bcastAppend c ⟨v, wk.id, "Fetch error: " ++ err⟩ none, [.fetch w v],
        by simp [Sys.setPc, hlt], rfl, by simp [eventsOf, Event.worker],
        by simp [IterTrace, expectedResult, expectedCalls, hcan, hf]⟩
    · rename_i content hf
      cases h
      exact ⟨.bcastAppend c ⟨v, wk.id, "Success"⟩ (some content), [.fetch w v],
        by simp [Sys.setPc, hlt], rfl, by simp [eventsOf, Event.worker],
        by simp [IterTrace, expectedResult, expectedCalls, hcan, hf]⟩
  | bcastAppend c r k =>
    simp only [IterTrace] at ht
    obtain ⟨rfl, hr, rfl⟩ := ht
    simp only [worker] at h
    cases h
    refine ⟨.bcastSend c r k, [.result w r], by simp [Sys.setPc, hlt], rfl,
      by simp [eventsOf, Event.worker], ?_⟩
    simp only [IterTrace, expectedHead, ← hr, and_self]
  | bcastSend c r k =>
    simp only [IterTrace] at ht
    obtain ⟨rfl, hr, rfl⟩ := ht
    simp only [worker] at h
    cases h
    cases k with
    | none =>
      refine ⟨.recv c, [], by simp [Sys.setPc, hlt], by simp [Sys.setPc], rfl, ?_⟩
      have h2 : (expectedResult env 0 u).2 = none := by
        rw [← expectedResult_id env wk.id u, ← hr]
      simp [IterTrace, expectedLinks, h2, pushEvents]
    | some page =>
      refine ⟨.parse c page, [], by simp [Sys.setPc, hlt], by simp [Sys.setPc], rfl, ?_⟩
      simp [IterTrace, ← hr]
  | parse c content =>
    simp only [IterTrace] at ht
    obtain ⟨rfl, hr, rfl⟩ := ht
    have h2 : (expectedResult env 0 u).2 = some content := by
      rw [← expectedResult_id env wk.id u, hr]
    simp only [worker] at h
    split at h
    · rename_i err hp
      cases h
      refine ⟨.recv c, [], by simp [Sys.setPc, hlt], by simp [Sys.setPc], rfl, ?_⟩
      simp [IterTrace, expectedLinks, h2, hp, pushEvents]
    · rename_i links hp
      cases h
      refine ⟨.push c links, [], by simp [Sys.setPc, hlt], by simp [Sys.setPc], rfl, ?_⟩
      simp [IterTrace, expectedLinks, h2, hp, pushEvents]
  | push c rest =>
    simp only [IterTrace] at ht
    obtain ⟨rfl, pushedLinks, hl, rfl⟩ := ht
    cases rest with
    | nil =>
      simp only [worker] at h
      cases h
      refine ⟨.recv c, [], by simp [Sys.setPc, hlt], by simp [Sys.setPc], rfl, ?_⟩
      simp only [List.append_nil] at hl
      simp [IterTrace, hl]
    | cons l rest =>
      simp only [worker] at h
      split at h
      · cases h
      · split at h
        · cases h
          refine ⟨.panicked, [], by simp [Sys.setPc, hlt], by simp [Sys.setPc], rfl, ?_⟩
          simp only [IterTrace, List.append_nil]
          exact ⟨pushedLinks, l :: rest, by simp, hl, rfl⟩
        · split at h
          · cases h
            refine ⟨.push c rest, [.push w (normalizeURL env l wk.baseURL)],
              by simp [Sys.setPc, hlt], rfl, by simp [eventsOf, Event.worker], ?_⟩
            simp only [IterTrace, true_and]
            exact ⟨pushedLinks ++ [l], by simp [hl], by simp [pushEvents]⟩
          · cases h

theorem isVisited_add_mono (v : List String) (u url : String) (h : IsVisited v u = true) :
    IsVisited (Add v url) u = true := by
  simp only [IsVisited, Add] at h ⊢
  split
  · exact h
  · simp only [List.contains_eq_any_beq, List.any_append, Bool.or_eq_true] at h ⊢
    exact Or.inl h

theorem worker_store_mono (env : Env) (s s1 : Sys) (j : Nat) (wkj : Worker) (i : Nat)
    (v : List String) (u : String)
    (h : worker env j wkj s = some s1) (hv : s.visiteds[i]? = some v)
    (hu : IsVisited v u = true) :
    ∃ v1, s1.visiteds[i]? = some v1 ∧ IsVisited v1 u = true := by
  have hli : i < s.visiteds.length := lookup_lt hv
  cases hpc : wkj.pc with
  | add c url =>
    simp only [worker, hpc] at h
    split at h
    · cases h
    · rename_i vj hvj
      cases h
      by_cases hij : wkj.visited = i
      · subst hij
        rw [hvj] at hv
        cases hv
        exact ⟨Add v url, by simp [Sys.setPc, hli], isVisited_add_mono v u url hu⟩
      · exact ⟨v, by simp [Sys.setPc, hij, hv], hu⟩
  | _ =>
    refine ⟨v, ?_, hu⟩
    unfold worker at h
    simp only [hpc] at h
    repeat' split at h
    all_goals
      cases h <;> simp_all [Sys.setPc]


theorem starter_store_mono (s s1 : Sys) (j : Nat) (st : Starter) (i : Nat) (v : List String)
    (h : handleStart j st s = some s1) (hv : s.visiteds[i]? = some v) :
    s1.visiteds[i]? = some v := by
  have hli : i < s.visiteds.length := lookup_lt hv
  unfold handleStart at h
  repeat' split at h
  all_goals
    cases h <;> simp [Sys.setStarter, hv, List.getElem?_append_left hli]

theorem store_mono (env : Env) (a : Action) (s s1 : Sys) (i : Nat) (v : List String) (u : String)
    (h : step env a s = some s1) (hv : s.visiteds[i]? = some v) (hu : IsVisited v u = true) :
    ∃ v1, s1.visiteds[i]? = some v1 ∧ IsVisited v1 u = true := by
  unfold step at h
  split at h
  · cases h
  · cases a with
    | worker j =>
      simp only at h
      split at h
      · cases h
      · exact worker_store_mono env s s1 j _ i v u h hv hu
    | starter j =>
      simp only at h
      split at h
      · cases h
      · exact ⟨v, starter_store_mono s s1 j _ i v h hv, hu⟩
    | stopReq method =>
      refine ⟨v, ?_, hu⟩
      simp only [handleStop] at h
      split at h
      · rename_i heq
        cases h
        repeat' split at heq
        all_goals
          cases heq <;> simp [hv]
      · rename_i heq
        cases h
        repeat' split at heq
        all_goals
          cases heq <;> simp [hv]
      · cases h
    | ws c =>
      refine ⟨v, ?_, hu⟩
      simp only [handleWebSocket] at h
      repeat' split at h
      all_goals
        cases h <;> simp [hv]
    | wsClose c =>
      refine ⟨v, ?_, hu⟩
      simp only at h
      repeat' split at h
      all_goals
        cases h <;> simp [hv]
    | connBreak c =>
      refine ⟨v, ?_, hu⟩
      simp only at h
      repeat' split at h
      all_goals
        cases h <;> simp [hv]
    | tick => cases h; exact ⟨v, by simp [hv], hu⟩
    | startReq method body => cases h; exact ⟨v, by simp [hv], hu⟩
    | wsConnect => cases h; exact ⟨v, by simp [hv], hu⟩

/-- One step of any thread keeps the record of an iteration of `w`. -/
theorem iter_step (env : Env) (a : Action) (s s1 : Sys) (w : Nat) (wk : Worker) (ch : Nat)
    (u : String) (pc : WPc) (evs : List Event)
    (hw : s.workers[w]? = some { wk with pc := pc })
    (ht : IterTrace env w wk ch u pc evs)
    (hnd : ∀ c, a = .worker w → pc ≠ .recv c)
    (h : step env a s = some s1) :
    ∃ pc1 new, s1.workers[w]? = some { wk with pc := pc1 } ∧
      eventsOf w s1.events = eventsOf w s.events ++ new ∧
      IterTrace env w wk ch u pc1 (evs ++ new) := by
  by_cases ha : ∃ j, a = .worker j
  · obtain ⟨j, rfl⟩ := ha
    unfold step at h
    split at h
    · cases h
    · simp only at h
      split at h
      · cases h
      · rename_i wkj hj
        by_cases hjw : j = w
        · subst hjw
          rw [hw] at hj
          cases hj
          obtain ⟨pc1, new, h1, h2, h3, h4⟩ :=
            iter_self_step env s s1 j wk ch u pc evs hw ht (fun c => hnd c rfl) h
          refine ⟨pc1, new, h1, ?_, h4⟩
          rw [h2]
          simp only [eventsOf, List.filter_append] at h3 ⊢
          rw [h3]
        · obtain ⟨h1, h2⟩ := worker_other_step env s s1 j w wkj hjw h
          exact ⟨pc, [], by rw [h1, hw], by simp [h2], by simpa using ht⟩
  · have ha1 : ∀ j, a ≠ .worker j := fun j hj => ha ⟨j, hj⟩
    obtain ⟨h1, h2⟩ := other_step_frame env a s s1 w _ ha1 hw h
    exact ⟨pc, [], h1, by simp [h2], by simpa using ht⟩

theorem iter_run (env : Env) (sched : List Action) :
    ∀ (s s1 : Sys) (w : Nat) (wk : Worker) (ch : Nat) (u : String) (pc : WPc)
      (evs : List Event),
      run env sched s = some s1 → noDequeue env w sched s = true →
      s.workers[w]? = some { wk with pc := pc } → IterTrace env w wk ch u pc evs →
      ∃ pc1 new, s1.workers[w]? = some { wk with pc := pc1 } ∧
        eventsOf w s1.events = eventsOf w s.events ++ new ∧
        IterTrace env w wk ch u pc1 (evs ++ new) := by
  induction sched with
  | nil =>
    intro s s1 w wk ch u pc evs h _ hw ht
    simp only [run, Option.some.injEq] at h
    subst h
    exact ⟨pc, [], hw, by simp, by simpa using ht⟩
  | cons a rest ih =>
    intro s s1 w wk ch u pc evs h hnd hw ht
    simp only [run] at h
    simp only [noDequeue, Bool.and_eq_true] at hnd
    cases hstep : step env a s with
    | none => simp [hstep] at h
    | some s2 =>
      simp only [hstep] at h hnd
      have hnd1 : ∀ c, a = .worker w → pc ≠ .recv c := by
        intro c ha hpc
        subst ha hpc
        have := hnd.1
        simp [hw] at this
      obtain ⟨pc2, new2, hw2, he2, ht2⟩ := iter_step env a s s2 w wk ch u pc evs hw ht hnd1 hstep
      obtain ⟨pc1, new1, hw1, he1, ht1⟩ := ih s2 s1 w wk ch u pc2 (evs ++ new2) h hnd.2 hw2 ht2
      exact ⟨pc1, new2 ++ new1, hw1, by rw [he1, he2, List.append_assoc],
        by rw [← List.append_assoc]; exact ht1⟩

theorem visited_step (env : Env) (a : Action) (s s1 : Sys) (w : Nat) (wk : Worker) (ch : Nat)
    (u : String) (pc : WPc) (v : List String)
    (hw : s.workers[w]? = some { wk with pc := pc })
    (hpc : pc = .isVisited ch u ∨ pc = .recv ch)
    (hv : s.visiteds[wk.visited]? = some v) (hu : IsVisited v u = true)
    (hnd : ∀ c, a = .worker w → pc ≠ .recv c)
    (h : step env a s = some s1) :
    ∃ pc1, s1.workers[w]? = some { wk with pc := pc1 } ∧
      (pc1 = .isVisited ch u ∨ pc1 = .recv ch) ∧
      eventsOf w s1.events = eventsOf w s.events := by
  have hlt : w < s.workers.length := lookup_lt hw
  by_cases ha : ∃ j, a = .worker j
  · obtain ⟨j, rfl⟩ := ha
    unfold step at h
    split at h
    · cases h
    · simp only at h
      split at h
      · cases h
      · rename_i wkj hj
        by_cases hjw : j = w
        · subst hjw
          rw [hw] at hj
          cases hj
          rcases hpc with rfl | rfl
          · simp only [worker, hv, hu, ↓reduceIte, Option.some.injEq] at h
            subst h
            exact ⟨.recv ch, by simp [Sys.setPc, hlt], Or.inr rfl, by simp [Sys.setPc]⟩
          · exact absurd rfl (hnd ch rfl)
        · obtain ⟨h1, h2⟩ := worker_other_step env s s1 j w wkj hjw h
          exact ⟨pc, by rw [h1, hw], hpc, h2⟩
  · have ha1 : ∀ j, a ≠ .worker j := fun j hj => ha ⟨j, hj⟩
    obtain ⟨h1, h2⟩ := other_step_frame env a s s1 w _ ha1 hw h
    exact ⟨pc, h1, hpc, by rw [h2]⟩

theorem visited_run (env : Env) (sched : List Action) :
    ∀ (s s1 : Sys) (w : Nat) (wk : Worker) (ch : Nat) (u : String) (pc : WPc)
      (v : List String),
      run env sched s = some s1 → noDequeue env w sched s = true →
      s.workers[w]? = some { wk with pc := pc } → (pc = .isVisited ch u ∨ pc = .recv ch) →
      s.visiteds[wk.visited]? = some v → IsVisited v u = true →
      ∃ pc1, s1.workers[w]? = some { wk with pc := pc1 } ∧
        (pc1 = .isVisited ch u ∨ pc1 = .recv ch) ∧
        eventsOf w s1.events = eventsOf w s.events := by
  induction sched with
  | nil =>
    intro s s1 w wk ch u pc v h _ hw hpc _ _
    simp only [run, Option.some.injEq] at h
    subst h
    exact ⟨pc, hw, hpc, rfl⟩
  | cons a rest ih =>
    intro s s1 w wk ch u pc v h hnd hw hpc hv hu
    simp only [run] at h
    simp only [noDequeue, Bool.and_eq_true] at hnd
    cases hstep : step env a s with
    | none => simp [hstep] at h
    | some s2 =>
      simp only [hstep] at h hnd
      have hnd1 : ∀ c, a = .worker w → pc ≠ .recv c := by
        intro c ha hpc1
        subst ha hpc1
        have := hnd.1
        simp [hw] at this
      obtain ⟨pc2, hw2, hpc2, he2⟩ := visited_step env a s s2 w wk ch u pc v hw hpc hv hu hnd1 hstep
      obtain ⟨v2, hv2, hu2⟩ := store_mono env a s s2 wk.visited v u hstep hv hu
      obtain ⟨pc1, hw1, hpc1, he1⟩ := ih s2 s1 w wk ch u pc2 v2 h hnd.2 hw2 hpc2 hv2 hu2
      exact ⟨pc1, hw1, hpc1, by rw [he1, he2]⟩

theorem pushesIn_head (env : Env) (w : Nat) (id : Int) (u : String) :
    pushesIn (expectedHead env w id u) = [] := by
  unfold pushesIn expectedHead expectedCalls
  split <;> rfl

theorem pushesIn_pushEvents (env : Env) (w : Nat) (base : String) (links : List String) :
    pushesIn (pushEvents env w base links) = links.map (fun l => normalizeURL env l base) := by
  unfold pushesIn pushEvents
  exact pushes_of_map w (fun l => normalizeURL env l base) links

theorem pushes_of_trace (env : Env) (w : Nat) (wk : Worker) (ch : Nat) (u : String) (pc : WPc)
    (evs : List Event) (ht : IterTrace env w wk ch u pc evs) :
    (∃ rest, pushesIn evs ++ rest =
      (expectedLinks env u).map (fun l => normalizeURL env l wk.baseURL)) ∧
    (pc = .recv ch → pushesIn evs =
      (expectedLinks env u).map (fun l => normalizeURL env l wk.baseURL)) := by
  have happ : ∀ a b : List Event, pushesIn (a ++ b) = pushesIn a ++ pushesIn b := by
    intro a b
    simp [pushesIn, List.filterMap_append]
  cases pc with
  | rangeStart => exact absurd ht (by simp [IterTrace])
  | rate c v => exact absurd ht (by simp [IterTrace])
  | chkStopped c v => exact absurd ht (by simp [IterTrace])
  | isVisited c v => exact absurd ht (by simp [IterTrace])
  | done => exact absurd ht (by simp [IterTrace])
  | add c v =>
    obtain ⟨_, _, rfl⟩ := ht
    exact ⟨⟨(expectedLinks env u).map (fun l => normalizeURL env l wk.baseURL), by simp [pushesIn]⟩, by simp⟩
  | robots c v =>
    obtain ⟨_, _, rfl⟩ := ht
    exact ⟨⟨(expectedLinks env u).map (fun l => normalizeURL env l wk.baseURL), by simp [pushesIn]⟩, by simp⟩
  | fetch c v =>
    obtain ⟨_, _, _, rfl⟩ := ht
    exact ⟨⟨(expectedLinks env u).map (fun l => normalizeURL env l wk.baseURL), by simp [pushesIn]⟩, by simp⟩
  | bcastAppend c r k =>
    obtain ⟨_, _, rfl⟩ := ht
    refine ⟨⟨(expectedLinks env u).map (fun l => normalizeURL env l wk.baseURL), ?_⟩, by simp⟩
    have : pushesIn (expectedCalls env w u) = [] := by
      unfold pushesIn expectedCalls
      split <;> rfl
    rw [this, List.nil_append]
  | bcastSend c r k =>
    obtain ⟨_, _, rfl⟩ := ht
    exact ⟨⟨(expectedLinks env u).map (fun l => normalizeURL env l wk.baseURL), by rw [pushesIn_head, List.nil_append]⟩, by simp⟩
  | parse c content =>
    obtain ⟨_, _, rfl⟩ := ht
    exact ⟨⟨(expectedLinks env u).map (fun l => normalizeURL env l wk.baseURL), by rw [pushesIn_head, List.nil_append]⟩, by simp⟩
  | push c rest =>
    obtain ⟨_, pushedLinks, hl, rfl⟩ := ht
    refine ⟨⟨rest.map (fun l => normalizeURL env l wk.baseURL), ?_⟩, by simp⟩
    rw [happ, pushesIn_head, pushesIn_pushEvents, ← hl]
    simp
  | recv c =>
    obtain ⟨_, rfl⟩ := ht
    have : pushesIn (expectedHead env w wk.id u ++
        pushEvents env w wk.baseURL (expectedLinks env u)) =
        (expectedLinks env u).map (fun l => normalizeURL env l wk.baseURL) := by
      rw [happ, pushesIn_head, pushesIn_pushEvents]
      simp
    exact ⟨⟨[], by rw [this]; simp⟩, fun _ => this⟩
  | panicked =>
    obtain ⟨pushedLinks, rest, _, hl, rfl⟩ := ht
    refine ⟨⟨rest.map (fun l => normalizeURL env l wk.baseURL), ?_⟩, by simp⟩
    rw [happ, pushesIn_head, pushesIn_pushEvents, ← hl]
    simp

/-! ## Concrete interleavings -/

/-- C1 (dedup invariant), evaluated on the interleaving `dedupRace`: both
workers belong to the one Run, `/u` sits in the frontier twice, and the
transport is called twice for `/u` (once by each worker) and two results for
`/u` are recorded. -/
theorem dedup_race_fetches_twice :
    (run site dedupRace Sys.init).map (fun s =>
      (s.workers.map (fun wk => wk.run),
       fetchCount "https://example.com/u" s,
       s.results.filter (fun r => r.URL = "https://example.com/u"))) =
    some ([0, 0], 2,
      [⟨"https://example.com/u", 0, "Success"⟩, ⟨"https://example.com/u", 1, "Success"⟩]) := by
  decide!

/-- C2 (Run retirement), evaluated on start, stop, start: when the second
`handleStart` has built the new frontier and dedup store and spawned its
first worker, the worker of the first Run is still alive, holding the first
seed; afterwards both workers call the transport, each for the seed of its
own Run. -/
theorem restart_does_not_retire_old_worker :
    (run site restartEarly Sys.init).map (fun s =>
      (s.starters.map (fun st => st.pc), s.urlsChan, s.visiteds.length)) =
      some ([.finished 200 "Crawler started", .spawn 1 1], 2, 2) ∧
    (run site restartEarly Sys.init).map (fun s =>
      s.workers.map (fun wk => (wk.run, wk.alive, wk.pc))) =
      some [(0, true, .rate 1 "https://example.com"), (1, true, .rangeStart)] ∧
    (run site restartBoth Sys.init).map (fun s =>
      (s.workers.map (fun wk => (wk.run, wk.alive)),
       s.events.filter (fun e => e matches .fetch _ _))) =
      some ([(0, true), (1, true)],
        [.fetch 0 "https://example.com", .fetch 1 "https://example.com/b"]) := by
  decide!

/-- C3 (push after closure), evaluated on `pushAfterStop`: the push that
follows the closing of the frontier panics in the worker goroutine, which
ends the process; the URL is not queued. -/
theorem push_after_stop_crashes :
    (run site pushAfterStop Sys.init).map (fun s =>
      (s.crashed, s.workers.map (fun wk => wk.pc), s.chans[s.urlsChan]?, pushed s)) =
    some (true, [.panicked], some ⟨["https://example.com/a"], true⟩,
      ["https://example.com/a"]) := by
  decide!

/-- C6 (no cross-Run leakage), evaluated on `leakAcrossRuns`: the log the
observer is sent after the second start holds the result that worker 0, a
worker of the first Run, produced for the first seed. -/
theorem old_run_result_in_new_log :
    (run site leakAcrossRuns Sys.init).map (fun s =>
      (s.starters.map (fun st => (st.URL, st.pc)), s.workers.map (fun wk => wk.run))) =
      some ([("https://example.com", .finished 200 "Crawler started"),
             ("https://example.com/b", .finished 200 "Crawler started")], [0, 1]) ∧
    (run site leakAcrossRuns Sys.init).map (fun s =>
      (s.events.filter (fun e => e matches .result _ _), s.results,
       s.conns.map (fun cn => cn.inbox))) =
      some ([.result 0 ⟨"https://example.com", 0, "Success"⟩],
        [⟨"https://example.com", 0, "Success"⟩],
        [[siteMarshal ⟨"https://example.com", 0, "Success"⟩]]) := by
  decide!

/-- C7 (replay completeness), evaluated on `replayRace` with K = 1: the
subscriber registers when the log holds one result, and is sent the second
result first, then the first, then the second again. -/
theorem replay_after_live_result :
    (run site (startActions 0 "https://example.com" 1 1 false ++ workerActions 0 10
        ++ [.wsConnect, .ws 0]) Sys.init).map (fun s => (s.results, s.clients)) =
      some ([⟨"https://example.com", 0, "Success"⟩], [0]) ∧
    (run site replayRace Sys.init).map (fun s => s.conns.map (fun cn => cn.inbox)) =
      some [[siteMarshal ⟨"https://example.com/a", 0, "Success"⟩,
             siteMarshal ⟨"https://example.com", 0, "Success"⟩,
             siteMarshal ⟨"https://example.com/a", 0, "Success"⟩]] := by
  decide!

/-! ## Link expansion -/

/-- C10 (link expansion), as amended. (1) A worker spawned by `handleStart`
gets the seed URL of the request as `baseURL` and its loop index as id.
(2) In every interleaving that stays within the iteration in which worker `w`
admitted `u`, the URLs `w` has pushed are an initial segment of
`normalizeURL l baseURL` for the links `l` of `expectedLinks`, in order, and
are all of them once `w` is back at the head of its loop. (3) `expectedLinks`
is empty when `u` is blocked, its fetch fails or parsing fails, and is the
list `parseLinks` returns otherwise. (4) One push, on an open frontier:
with fewer than 100 URLs buffered it appends the resolved link at the back of
the current frontier; with 100 buffered it does not take place. (5) When the
worker runs alone from the robots check: nothing is pushed in the three
failure cases, and with an open frontier that has room for all links the
frontier receives exactly the resolved links, in order. -/
theorem link_expansion (env : Env) :
    (∀ (s : Sys) (j : Nat) (st : Starter) (visited i : Nat),
      s.crashed = false → s.starters[j]? = some st → st.pc = .spawn visited i →
      (i : Int) < st.numWorkers →
      ∃ s1, step env (.starter j) s = some s1 ∧
        s1.workers = s.workers ++ [⟨(i : Int), visited, st.URL, j, .rangeStart⟩]) ∧
    (∀ (sched : List Action) (s s1 : Sys) (w : Nat) (wk : Worker) (ch : Nat) (u : String),
      run env sched s = some s1 → noDequeue env w sched s = true →
      s.workers[w]? = some wk → wk.pc = .add ch u →
      ∃ pc1 new, s1.workers[w]? = some { wk with pc := pc1 } ∧
        eventsOf w s1.events = eventsOf w s.events ++ new ∧
        (∃ rest, pushesIn new ++ rest =
          (expectedLinks env u).map (fun l => normalizeURL env l wk.baseURL)) ∧
        (pc1 = .recv ch → pushesIn new =
          (expectedLinks env u).map (fun l => normalizeURL env l wk.baseURL))) ∧
    (∀ (u : String),
      (env.canFetch u = false → expectedLinks env u = []) ∧
      (∀ err, env.canFetch u = true → env.fetch u = .error err → expectedLinks env u = []) ∧
      (∀ content err, env.canFetch u = true → env.fetch u = .ok content →
        env.parseLinks content = .error err → expectedLinks env u = []) ∧
      (∀ content links, env.canFetch u = true → env.fetch u = .ok content →
        env.parseLinks content = .ok links → expectedLinks env u = links)) ∧
    (∀ (s : Sys) (w : Nat) (wk : Worker) (ch : Nat) (link : String) (rest : List String)
      (c : Chan),
      s.crashed = false → s.workers[w]? = some wk → wk.pc = .push ch (link :: rest) →
      s.chans[s.urlsChan]? = some c → c.closed = false →
      (c.buf.length < chanCap →
        step env (.worker w) s = some
          { s with
            workers := s.workers.set w { wk with pc := .push ch rest }
            chans := s.chans.set s.urlsChan
              { c with buf := c.buf ++ [normalizeURL env link wk.baseURL] }
            events := s.events ++ [.push w (normalizeURL env link wk.baseURL)] }) ∧
      (chanCap ≤ c.buf.length → step env (.worker w) s = none)) ∧
    (∀ (s : Sys) (w : Nat) (wk : Worker) (ch : Nat) (u : String),
      s.crashed = false → s.workers[w]? = some wk → wk.pc = .robots ch u →
      (env.canFetch u = false →
        ∃ s1, runWorker env w 3 s = some s1 ∧ s1.chans = s.chans ∧ pushed s1 = pushed s ∧
          (s1.workers[w]?).map (fun x => x.pc) = some (.recv ch)) ∧
      (∀ err, env.canFetch u = true → env.fetch u = .error err →
        ∃ s1, runWorker env w 4 s = some s1 ∧ s1.chans = s.chans ∧ pushed s1 = pushed s ∧
          (s1.workers[w]?).map (fun x => x.pc) = some (.recv ch)) ∧
      (∀ content err, env.canFetch u = true → env.fetch u = .ok content →
        env.parseLinks content = .error err →
        ∃ s1, runWorker env w 5 s = some s1 ∧ s1.chans = s.chans ∧ pushed s1 = pushed s ∧
          (s1.workers[w]?).map (fun x => x.pc) = some (.recv ch)) ∧
      (∀ content links c, env.canFetch u = true → env.fetch u = .ok content →
        env.parseLinks content = .ok links →
        s.chans[s.urlsChan]? = some c → c.closed = false →
        c.buf.length + links.length ≤ chanCap →
        ∃ s1, runWorker env w (5 + (links.length + 1)) s = some s1 ∧
          s1.chans = s.chans.set s.urlsChan
            { c with buf := c.buf ++ links.map (fun l => normalizeURL env l wk.baseURL) } ∧
          pushed s1 = pushed s ++ links.map (fun l => normalizeURL env l wk.baseURL) ∧
          (s1.workers[w]?).map (fun x => x.pc) = some (.recv ch))) := by
  refine ⟨?_, ?_, ?_, ?_, ?_⟩
  · intro s j st visited i hcr hst hpc hi
    simp [step, handleStart, hcr, hst, hpc, hi, Sys.setStarter]
  · intro sched s s1 w wk ch u h hnd hw hpc
    have hw1 : s.workers[w]? = some { wk with pc := .add ch u } := by
      rw [hw, ← hpc]
    obtain ⟨pc1, new, h1, h2, h3⟩ :=
      iter_run env sched s s1 w wk ch u (.add ch u) [] h hnd hw1 (by simp [IterTrace])
    simp only [List.nil_append] at h3
    exact ⟨pc1, new, h1, h2, pushes_of_trace env w wk ch u pc1 new h3⟩
  · intro u
    refine ⟨?_, ?_, ?_, ?_⟩
    · intro hcan
      simp [expectedLinks, expectedResult, hcan]
    · intro err hcan hf
      simp [expectedLinks, expectedResult, hcan, hf]
    · intro content err hcan hf hp
      simp [expectedLinks, expectedResult, hcan, hf, hp]
    · intro content links hcan hf hp
      simp [expectedLinks, expectedResult, hcan, hf, hp]
  · intro s w wk ch link rest c hcr hw hpc hc hopen
    refine ⟨?_, ?_⟩
    · intro hroom
      simp [step, worker, hcr, hw, hpc, hc, hopen, hroom, Sys.setPc]
    · intro hfull
      have : ¬ c.buf.length < chanCap := by omega
      simp [step, worker, hcr, hw, hpc, hc, hopen, this]
  · intro s w wk ch u hcr hw hpc
    have hlt : w < s.workers.length := lookup_lt hw
    refine ⟨?_, ?_, ?_, ?_⟩
    · intro hcan
      simp [runWorker, List.replicate, run, step, worker, hw, hpc, hcr, hcan, Sys.setPc,
        hlt, pushed, List.filterMap_append]
    · intro err hcan hf
      simp [runWorker, List.replicate, run, step, worker, hw, hpc, hcr, hcan, hf,
        Sys.setPc, hlt, pushed, List.filterMap_append]
    · intro content err hcan hf hp
      simp [runWorker, List.replicate, run, step, worker, hw, hpc, hcr, hcan, hf, hp,
        Sys.setPc, hlt, pushed, List.filterMap_append]
    · intro content links c hcan hf hp hc hopen hroom
      have h5 : ∃ s5, runWorker env w 5 s = some s5 ∧ s5.crashed = false ∧
          s5.workers[w]? = some { wk with pc := .push ch links } ∧ s5.chans = s.chans ∧
          s5.urlsChan = s.urlsChan ∧ pushed s5 = pushed s := by
        simp [runWorker, List.replicate, run, step, worker, hw, hpc, hcr, hcan, hf, hp,
          Sys.setPc, hlt, List.set_set, pushed, List.filterMap_append]
      obtain ⟨s5, hrun, hcr5, hw5, hch5, hu5, hp5⟩ := h5
      rw [runWorker_add env w 5 _ s s5 hrun]
      rw [push_loop env w ch links s5 { wk with pc := .push ch links } c hcr5 hw5 rfl
        (by rw [hu5, hch5]; exact hc) hopen hroom]
      refine ⟨_, rfl, ?_, ?_, ?_⟩
      · simp [hu5, hch5]
      · simp only [pushed] at hp5 ⊢
        rw [List.filterMap_append, pushes_of_map, hp5]
      · simp [lookup_lt hw5]

/-- C10, witness: the hypotheses hold in `homeState` and `admitState`; the
seed `https://example.com` with one worker and the links `/a` and
`https://example.com/b` yields the pushes `https://example.com/a` and
`https://example.com/b`, alone and with other threads running in between, and
the result of the seed has `WorkerID` 0. -/
theorem link_expansion_example :
    (homeState.crashed = false ∧
     homeState.workers[0]? = some ⟨0, 0, "https://example.com", 0, .robots 1 "https://example.com"⟩ ∧
     homeState.chans[homeState.urlsChan]? = some ⟨[], false⟩ ∧
     run site expansionActions (admitState "https://example.com") =
       some ((run site expansionActions (admitState "https://example.com")).getD Sys.init) ∧
     noDequeue site 0 expansionActions (admitState "https://example.com") = true ∧
     (admitState "https://example.com").workers[0]? =
       some ⟨0, 0, "https://example.com", 0, .add 1 "https://example.com"⟩) ∧
    (∃ s1, runWorker site 0 (5 + (["/a", "https://example.com/b"].length + 1)) homeState = some s1 ∧
      s1.chans = homeState.chans.set homeState.urlsChan
        { (⟨[], false⟩ : Chan) with
          buf := [] ++ ["/a", "https://example.com/b"].map
            (fun l => normalizeURL site l "https://example.com") } ∧
      pushed s1 = pushed homeState ++
        ["/a", "https://example.com/b"].map (fun l => normalizeURL site l "https://example.com") ∧
      (s1.workers[0]?).map (fun x => x.pc) = some (.recv 1)) ∧
    (∃ pc1 new,
      ((run site expansionActions (admitState "https://example.com")).getD Sys.init).workers[0]? =
        some { (⟨0, 0, "https://example.com", 0, .add 1 "https://example.com"⟩ : Worker) with
          pc := pc1 } ∧
      eventsOf 0 ((run site expansionActions (admitState "https://example.com")).getD
          Sys.init).events =
        eventsOf 0 (admitState "https://example.com").events ++ new ∧
      (∃ rest, pushesIn new ++ rest =
        (expectedLinks site "https://example.com").map
          (fun l => normalizeURL site l "https://example.com")) ∧
      (pc1 = .recv 1 → pushesIn new =
        (expectedLinks site "https://example.com").map
          (fun l => normalizeURL site l "https://example.com"))) ∧
    (run site expansionActions (admitState "https://example.com")).map
      (fun s => (s.workers.map (fun wk => wk.pc), pushed s, s.results)) =
      some ([.recv 1], ["https://example.com/a", "https://example.com/b"],
        [⟨"https://example.com", 0, "Success"⟩]) ∧
    (run site (startActions 0 "https://example.com" 1 1 false ++ workerActions 0 14) Sys.init).map
      (fun s => (pushed s, s.results, s.chans[s.urlsChan]?)) =
      some (["https://example.com/a", "https://example.com/b"],
        [⟨"https://example.com", 0, "Success"⟩],
        some ⟨["https://example.com/a", "https://example.com/b"], false⟩) :=
  ⟨by decide!,
   ((link_expansion site).2.2.2.2 homeState 0
      ⟨0, 0, "https://example.com", 0, .robots 1 "https://example.com"⟩
      1 "https://example.com" (by decide!) (by decide!) rfl).2.2.2 "home"
      ["/a", "https://example.com/b"] ⟨[], false⟩ (by decide!) (by simp [site, siteFetch])
      (by simp [site, siteLinks]) (by decide!) rfl (by decide!),
   (link_expansion site).2.1 expansionActions (admitState "https://example.com")
     ((run site expansionActions (admitState "https://example.com")).getD Sys.init) 0
     ⟨0, 0, "https://example.com", 0, .add 1 "https://example.com"⟩ 1 "https://example.com"
     (by decide!) (by decide!) (by decide!) rfl,
   by decide!, by decide!⟩

/-- C10, counterexample: the seed page has 101 links and the Run one worker.
After the 100th push the frontier is full; the worker still holds the last
link, 100 URLs were pushed, and the worker cannot take another step. -/
theorem push_blocks_on_full_frontier :
    (run site wideRun Sys.init).map (fun s =>
      (s.workers.map (fun wk => wk.pc), (pushed s).length,
       s.chans.map (fun c => (c.buf.length, c.closed)))) =
      some ([.push 1 ["/u"]], 100, [(0, true), (100, false)]) ∧
    (run site (wideRun ++ [.worker 0]) Sys.init).isNone = true := by
  decide!

/-! ## Start and stop requests -/

/-- C8 (worker-count validation), counterexample: a start request with worker
count 0 and the seed `https://example.com`, sent to the freshly started
process, is answered 200 "Crawler started"; ten workers with the ids 0 to 9
are spawned, the frontier is replaced by a new one holding the seed, and a
dedup store is created. -/
theorem zero_workers_start_is_accepted :
    (Sys.init.workers.length, Sys.init.urlsChan, Sys.init.visiteds.length) = (0, 0, 0) ∧
    (run site (startActions 0 "https://example.com" 0 10 false) Sys.init).map (fun s =>
      (s.starters, s.workers.map (fun wk => wk.id), s.crawlWG)) =
      some ([⟨"https://example.com", 10, .finished 200 "Crawler started"⟩],
        [0, 1, 2, 3, 4, 5, 6, 7, 8, 9], 10) ∧
    (run site (startActions 0 "https://example.com" 0 10 false) Sys.init).map (fun s =>
      (s.urlsChan, s.chans, s.visiteds.length)) =
      some (1, [⟨[], true⟩, ⟨["https://example.com"], false⟩], 1) := by
  decide!

/-- C8, as amended: a POST start request with a non-positive worker count and
a seed that parses to an http or https URL passes validation with
`numWorkers = 10`, and is handled exactly like the same request with worker
count 10. -/
theorem nonpositive_workers_default_to_ten (env : Env) (url : String) (n : Int) (parsedURL : URL)
    (hn : n ≤ 0) (hurl : url ≠ "") (hparse : env.urlParse url = some parsedURL)
    (hscheme : parsedURL.Scheme = "http" ∨ parsedURL.Scheme = "https") :
    validateStart env "POST" (some ⟨url, n⟩) = .ok (url, 10) ∧
    newStarter env "POST" (some ⟨url, n⟩) = ⟨url, 10, .stopOld⟩ ∧
    ∀ s, step env (.startReq "POST" (some ⟨url, n⟩)) s =
      step env (.startReq "POST" (some ⟨url, 10⟩)) s := by
  have hv : ∀ m : Int, m ≤ 0 ∨ m = 10 → validateStart env "POST" (some ⟨url, m⟩) = .ok (url, 10) := by
    intro m hm
    unfold validateStart
    rcases hscheme with h | h
    · rcases hm with hm | hm
      · simp [hurl, hparse, h, hm]
      · simp [hurl, hparse, h, hm]
    · rcases hm with hm | hm
      · simp [hurl, hparse, h, hm]
      · simp [hurl, hparse, h, hm]
  refine ⟨hv n (Or.inl hn), ?_, ?_⟩
  · simp [newStarter, hv n (Or.inl hn)]
  · intro s
    simp [step, newStarter, hv n (Or.inl hn), hv 10 (Or.inr rfl)]

/-- C8, witness: worker count -3 and the seed `https://example.com`. -/
theorem nonpositive_workers_default_to_ten_witness :
    ((-3 : Int) ≤ 0 ∧ "https://example.com" ≠ "" ∧
      site.urlParse "https://example.com" = some { Scheme := "https", Host := "example.com" }) ∧
    (validateStart site "POST" (some ⟨"https://example.com", -3⟩) = .ok ("https://example.com", 10) ∧
     newStarter site "POST" (some ⟨"https://example.com", -3⟩) = ⟨"https://example.com", 10, .stopOld⟩ ∧
     ∀ s, step site (.startReq "POST" (some ⟨"https://example.com", -3⟩)) s =
       step site (.startReq "POST" (some ⟨"https://example.com", 10⟩)) s) :=
  ⟨⟨by decide, by decide, by decide!⟩,
   nonpositive_workers_default_to_ten site "https://example.com" (-3)
     { Scheme := "https", Host := "example.com" } (by decide) (by decide) (by decide!)
     (Or.inr rfl)⟩

/-- C9 (stop when idle), counterexample: in the initial state of the process
no Run exists and the stop flag is clear; `handleStop` sets the flag and
closes the frontier. -/
theorem stop_in_initial_state_changes_state :
    handleStop "POST" Sys.init =
      .returned { Sys.init with stopped := true, chans := [⟨[], true⟩] } 200 "Crawler stopped" ∧
    Sys.init.stopped = false ∧ Sys.init.chans = [⟨[], false⟩] ∧ Sys.init.workers = [] ∧
    Sys.init.starters = [] := by
  decide!

/-- C9, as amended: in every state in which the stop flag is set (and
`stoppedMux` is free), `handleStop` returns 200 and leaves the whole state
unchanged, closing nothing; and whenever one `handleStop` has returned, a
second one leaves the state it finds unchanged, so stop followed by stop
equals a single stop and never closes a channel twice. -/
theorem stop_when_stopped_is_noop (s : Sys) :
    (s.stopped = true → s.stoppedMuxHeld = false →
      handleStop "POST" s = .returned s 200 "Crawler stopped") ∧
    (∀ s1 code body, handleStop "POST" s = .returned s1 code body →
      handleStop "POST" s1 = .returned s1 200 "Crawler stopped") := by
  refine ⟨?_, ?_⟩
  · intro hs hm
    simp [handleStop, hs, hm]
  · intro s1 code body h
    unfold handleStop at h
    simp only [ne_eq, not_true_eq_false, ↓reduceIte] at h
    split at h
    · cases h
    · rename_i hm
      split at h
      · rename_i hs
        split at h
        · cases h
        · rename_i c hc
          split at h
          · cases h
          · simp only [Outcome.returned.injEq] at h
            obtain ⟨h1, _, _⟩ := h
            subst h1
            simp [handleStop, hm]
      · rename_i hs
        simp only [Outcome.returned.injEq] at h
        obtain ⟨h1, _, _⟩ := h
        subst h1
        simp only [Bool.not_eq_true, Bool.not_eq_eq_eq_not, Bool.not_true, Bool.not_eq_false] at hs hm
        simp [handleStop, hs, hm]

/-- C9, witness: the state after start and stop with a live worker, and the
initial state for two stops in a row. -/
theorem stop_when_stopped_is_noop_witness :
    (stoppedState.stopped = true ∧ stoppedState.stoppedMuxHeld = false ∧
      stoppedState.workers.map (fun wk => wk.alive) = [true] ∧
      handleStop "POST" stoppedState = .returned stoppedState 200 "Crawler stopped") ∧
    (handleStop "POST" Sys.init =
        .returned { Sys.init with stopped := true, chans := [⟨[], true⟩] } 200 "Crawler stopped" ∧
      handleStop "POST" { Sys.init with stopped := true, chans := [⟨[], true⟩] } =
        .returned { Sys.init with stopped := true, chans := [⟨[], true⟩] } 200 "Crawler stopped") :=
  ⟨⟨by decide!, by decide!, by decide!,
    (stop_when_stopped_is_noop stoppedState).1 (by decide!) (by decide!)⟩,
   ⟨by decide!, (stop_when_stopped_is_noop Sys.init).2 _ _ _ (by decide! :
      handleStop "POST" Sys.init =
        .returned { Sys.init with stopped := true, chans := [⟨[], true⟩] } 200 "Crawler stopped")⟩⟩

/-! ## One iteration of a worker -/

/-- C5 (result emission of one worker iteration). (1) A worker that reads the
stop flag as clear goes on to the dedup check. (2) If `u` is in its dedup
store then, in every interleaving that stays within this iteration, the
worker records no event (no fetch, no result) and is at the check or back at
the head of its loop. (3) If `u` is absent at the check, the worker goes on
to mark it. (4) From there, in every interleaving that stays within this
iteration, the events of the worker are those `IterTrace` lists for its
position; when it is back at the head of its loop they are the calls of
`expectedCalls`, then exactly one result, `expectedResult`, then the pushes
of the links. (5) `expectedResult` is "Blocked by robots.txt" without a fetch
when `canFetch u` is false, "Fetch error: " and the error text when the fetch
fails, "Success" when it succeeds. (6) A step of a worker appends to the
result log exactly when it is the first half of `broadcastResult`, and then
its argument; parsing and pushing append nothing. (7) Line 93 puts `u` in the
store, and no step of any thread removes a URL from a store. (8) Between the
check and the end of parsing the worker is never blocked. (9) Run alone from
line 93, the worker has appended exactly the expected result after four
steps when `u` is blocked and after five otherwise. -/
theorem worker_iteration_results (env : Env) :
    (∀ (s : Sys) (w : Nat) (wk : Worker) (ch : Nat) (u : String),
      s.crashed = false → s.stoppedMuxHeld = false → s.stopped = false →
      s.workers[w]? = some wk → wk.pc = .chkStopped ch u →
      step env (.worker w) s = some (s.setPc w wk (.isVisited ch u))) ∧
    (∀ (sched : List Action) (s s1 : Sys) (w : Nat) (wk : Worker) (ch : Nat) (u : String)
      (v : List String),
      run env sched s = some s1 → noDequeue env w sched s = true →
      s.workers[w]? = some wk → wk.pc = .isVisited ch u →
      s.visiteds[wk.visited]? = some v → IsVisited v u = true →
      eventsOf w s1.events = eventsOf w s.events ∧
        (s1.workers[w]? = some wk ∨ s1.workers[w]? = some { wk with pc := .recv ch })) ∧
    (∀ (s : Sys) (w : Nat) (wk : Worker) (ch : Nat) (u : String) (v : List String),
      s.crashed = false → s.workers[w]? = some wk → wk.pc = .isVisited ch u →
      s.visiteds[wk.visited]? = some v → IsVisited v u = false →
      step env (.worker w) s = some (s.setPc w wk (.add ch u))) ∧
    (∀ (sched : List Action) (s s1 : Sys) (w : Nat) (wk : Worker) (ch : Nat) (u : String),
      run env sched s = some s1 → noDequeue env w sched s = true →
      s.workers[w]? = some wk → wk.pc = .add ch u →
      ∃ pc1 new, s1.workers[w]? = some { wk with pc := pc1 } ∧
        eventsOf w s1.events = eventsOf w s.events ++ new ∧
        IterTrace env w wk ch u pc1 new ∧
        (pc1 = .recv ch → new = expectedCalls env w u ++
          [.result w (expectedResult env wk.id u).1] ++
          pushEvents env w wk.baseURL (expectedLinks env u))) ∧
    (∀ (id : Int) (u : String),
      (env.canFetch u = false →
        expectedResult env id u = (⟨u, id, "Blocked by robots.txt"⟩, none) ∧
        ∀ w, expectedCalls env w u = [.mark w u, .robots w u]) ∧
      (env.canFetch u = true →
        (∀ w, expectedCalls env w u = [.mark w u, .robots w u, .fetch w u]) ∧
        (∀ err, env.fetch u = .error err →
          expectedResult env id u = (⟨u, id, "Fetch error: " ++ err⟩, none)) ∧
        (∀ content, env.fetch u = .ok content →
          expectedResult env id u = (⟨u, id, "Success"⟩, some content)))) ∧
    (∀ (s s1 : Sys) (w : Nat) (wk : Worker),
      step env (.worker w) s = some s1 → s.workers[w]? = some wk →
      (∀ ch r k, wk.pc = .bcastAppend ch r k → s1.results = s.results ++ [r]) ∧
      ((∀ ch r k, wk.pc ≠ .bcastAppend ch r k) → s1.results = s.results)) ∧
    ((∀ (s s1 : Sys) (w : Nat) (wk : Worker) (ch : Nat) (u : String),
        step env (.worker w) s = some s1 → s.workers[w]? = some wk → wk.pc = .add ch u →
        ∃ v1, s1.visiteds[wk.visited]? = some v1 ∧ IsVisited v1 u = true) ∧
      (∀ (a : Action) (s s1 : Sys) (i : Nat) (v : List String) (u : String),
        step env a s = some s1 → s.visiteds[i]? = some v → IsVisited v u = true →
        ∃ v1, s1.visiteds[i]? = some v1 ∧ IsVisited v1 u = true)) ∧
    (∀ (s : Sys) (w : Nat) (wk : Worker) (v : List String),
      s.crashed = false → s.workers[w]? = some wk → midIteration wk.pc = true →
      s.visiteds[wk.visited]? = some v →
      ∃ s1, step env (.worker w) s = some s1) ∧
    (∀ (s : Sys) (w : Nat) (wk : Worker) (ch : Nat) (u : String) (v : List String),
      s.crashed = false → s.workers[w]? = some wk → wk.pc = .add ch u →
      s.visiteds[wk.visited]? = some v →
      ∃ s1, runWorker env w (if env.canFetch u then 5 else 4) s = some s1 ∧
        s1.results = s.results ++ [(expectedResult env wk.id u).1] ∧
        s1.workers[w]? = some { wk with pc :=
          match (expectedResult env wk.id u).2 with
          | none => .recv ch
          | some content => .parse ch content }) := by
  refine ⟨?_, ?_, ?_, ?_, ?_, ?_, ⟨?_, ?_⟩, ?_, ?_⟩
  · intro s w wk ch u hcr hmux hs hw hpc
    simp [step, worker, hcr, hmux, hs, hw, hpc]
  · intro sched s s1 w wk ch u v h hnd hw hpc hv hu
    have hw1 : s.workers[w]? = some { wk with pc := .isVisited ch u } := by
      rw [hw, ← hpc]
    obtain ⟨pc1, h1, h2, h3⟩ :=
      visited_run env sched s s1 w wk ch u (.isVisited ch u) v h hnd hw1 (Or.inl rfl) hv hu
    refine ⟨h3, ?_⟩
    rcases h2 with rfl | rfl
    · left
      rw [h1, ← hpc]
    · right
      exact h1
  · intro s w wk ch u v hcr hw hpc hv hu
    simp [step, worker, hcr, hw, hpc, hv, hu]
  · intro sched s s1 w wk ch u h hnd hw hpc
    have hw1 : s.workers[w]? = some { wk with pc := .add ch u } := by
      rw [hw, ← hpc]
    obtain ⟨pc1, new, h1, h2, h3⟩ :=
      iter_run env sched s s1 w wk ch u (.add ch u) [] h hnd hw1 (by simp [IterTrace])
    simp only [List.nil_append] at h3
    refine ⟨pc1, new, h1, h2, h3, ?_⟩
    intro hpc1
    subst hpc1
    simp only [IterTrace, true_and] at h3
    rw [h3, expectedHead]
  · intro id u
    refine ⟨?_, ?_⟩
    · intro hcan
      simp [expectedResult, expectedCalls, hcan]
    · intro hcan
      refine ⟨?_, ?_, ?_⟩
      · intro w
        simp [expectedCalls, hcan]
      · intro err hf
        simp [expectedResult, hcan, hf]
      · intro content hf
        simp [expectedResult, hcan, hf]
  · intro s s1 w wk h hw
    unfold step at h
    split at h
    · cases h
    · simp only [hw] at h
      refine ⟨?_, ?_⟩
      · intro ch r k hpc
        simp only [worker, hpc, Option.some.injEq] at h
        subst h
        simp [Sys.setPc]
      · intro hne
        unfold worker at h
        repeat' split at h
        all_goals first
          | (rename_i hpc
             exact absurd hpc (hne _ _ _))
          | (cases h <;> simp [Sys.setPc])
  · intro s s1 w wk ch u h hw hpc
    unfold step at h
    split at h
    · cases h
    · simp only [hw, worker, hpc] at h
      split at h
      · cases h
      · rename_i v hv
        cases h
        exact ⟨Add v u, by simp [Sys.setPc, lookup_lt hv], isVisited_add v u⟩
  · intro a s s1 i v u h hv hu
    exact store_mono env a s s1 i v u h hv hu
  · intro s w wk v hcr hw hmid hv
    cases hpc : wk.pc <;> simp [hpc, midIteration] at hmid <;>
      simp [step, worker, hcr, hw, hpc, hv]
    all_goals (repeat' split) <;> simp
  · intro s w wk ch u v hcr hw hpc hv
    have hlt : w < s.workers.length := lookup_lt hw
    have hlv : wk.visited < s.visiteds.length := lookup_lt hv
    by_cases hcan : env.canFetch u = true
    · cases hf : env.fetch u with
      | error err =>
        simp [runWorker, List.replicate, run, step, worker, hw, hpc, hcr, hv, hcan, hf,
          Sys.setPc, hlt, hlv, expectedResult]
      | ok content =>
        simp [runWorker, List.replicate, run, step, worker, hw, hpc, hcr, hv, hcan, hf,
          Sys.setPc, hlt, hlv, expectedResult]
    · simp only [Bool.not_eq_true] at hcan
      simp [runWorker, List.replicate, run, step, worker, hw, hpc, hcr, hv, hcan,
        Sys.setPc, hlt, hlv, expectedResult]

/-- C5, witness: the only worker of a Run has admitted the seed `/missing`,
which the transport fails to fetch; while a subscriber connects and is
replayed the log, the worker marks the seed, asks the robots policy, calls
the transport and records one "Fetch error" result. -/
theorem worker_iteration_results_witness :
    (run site iterationActions (admitState "https://example.com/missing") =
        some ((run site iterationActions (admitState "https://example.com/missing")).getD Sys.init) ∧
      noDequeue site 0 iterationActions (admitState "https://example.com/missing") = true ∧
      (admitState "https://example.com/missing").workers[0]? =
        some ⟨0, 0, "https://example.com/missing", 0, .add 1 "https://example.com/missing"⟩) ∧
    (∃ pc1 new,
      ((run site iterationActions (admitState "https://example.com/missing")).getD
          Sys.init).workers[0]? =
        some { (⟨0, 0, "https://example.com/missing", 0,
          .add 1 "https://example.com/missing"⟩ : Worker) with pc := pc1 } ∧
      eventsOf 0 ((run site iterationActions (admitState "https://example.com/missing")).getD
          Sys.init).events =
        eventsOf 0 (admitState "https://example.com/missing").events ++ new ∧
      IterTrace site 0 ⟨0, 0, "https://example.com/missing", 0,
        .add 1 "https://example.com/missing"⟩ 1 "https://example.com/missing" pc1 new ∧
      (pc1 = .recv 1 → new = expectedCalls site 0 "https://example.com/missing" ++
        [.result 0 (expectedResult site (0 : Int) "https://example.com/missing").1] ++
        pushEvents site 0 "https://example.com/missing"
          (expectedLinks site "https://example.com/missing"))) ∧
    (run site iterationActions (admitState "https://example.com/missing")).map (fun s =>
      (s.workers.map (fun wk => wk.pc), s.events, s.results, s.visiteds)) =
      some ([.recv 1],
        [.mark 0 "https://example.com/missing", .robots 0 "https://example.com/missing",
         .fetch 0 "https://example.com/missing",
         .result 0 ⟨"https://example.com/missing", 0, "Fetch error: 404 Not Found"⟩],
        [⟨"https://example.com/missing", 0, "Fetch error: 404 Not Found"⟩],
        [["https://example.com/missing"]]) :=
  ⟨by decide!,
   (worker_iteration_results site).2.2.2.1 iterationActions
     (admitState "https://example.com/missing")
     ((run site iterationActions (admitState "https://example.com/missing")).getD Sys.init) 0
     ⟨0, 0, "https://example.com/missing", 0, .add 1 "https://example.com/missing"⟩ 1
     "https://example.com/missing" (by decide!) (by decide!) (by decide!) rfl,
   by decide!⟩

/-! ## The stop flag -/

/-- C4 (stop stops), evaluated on start, stop, start: the worker dequeues the
seed from the closed frontier while the stop flag is set (first two parts:
the state before and after the dequeue); the second `handleStart` clears the
flag without waiting for the worker; the worker then reads the flag as clear
and handles the seed: it marks it visited, asks the robots policy, calls the
transport, records a result and pushes both links, which land in the frontier
of the second Run. -/
theorem dequeued_while_stopped_is_fetched :
    (run site (restartAfterDequeue.take 11) Sys.init).map (fun s =>
      (s.stopped, s.chans[1]?, s.workers.map (fun wk => wk.pc))) =
      some (true, some ⟨["https://example.com"], true⟩, [.recv 1]) ∧
    (run site restartAfterDequeue Sys.init).map (fun s =>
      (s.stopped, s.chans[1]?, s.workers.map (fun wk => wk.pc))) =
      some (true, some ⟨[], true⟩, [.rate 1 "https://example.com"]) ∧
    (run site restartClearsFlag Sys.init).map (fun s =>
      (s.stopped, eventsOf 0 s.events, s.results)) =
      some (false,
        [.mark 0 "https://example.com", .robots 0 "https://example.com",
         .fetch 0 "https://example.com",
         .result 0 ⟨"https://example.com", 0, "Success"⟩,
         .push 0 "https://example.com/a", .push 0 "https://example.com/b"],
        [⟨"https://example.com", 0, "Success"⟩]) ∧
    (run site restartClearsFlag Sys.init).map (fun s =>
      (s.visiteds[0]?, s.urlsChan, s.chans[2]?)) =
      some (some ["https://example.com"], 2,
        some ⟨["https://example.com/b", "https://example.com/a", "https://example.com/b"],
          false⟩) := by
  decide!

/-- What the stop check of lines 82-87 does guarantee. (1) A worker that
reads the stop flag while it is set goes back to the head of its loop with
the dequeued URL dropped; nothing else in the state changes. (2) In every
interleaving along which the flag stays set, a worker that holds no admitted
URL stays so and records no robots call, fetch, result, visited mark or push.
(3) A worker leaves its loop only from the head of the loop, on a frontier
that is closed and empty. -/
theorem stop_check_while_flag_set (env : Env) :
    (∀ (s : Sys) (w : Nat) (wk : Worker) (ch : Nat) (u : String),
      s.crashed = false → s.stoppedMuxHeld = false → s.stopped = true →
      s.workers[w]? = some wk → wk.pc = .chkStopped ch u →
      step env (.worker w) s = some (s.setPc w wk (.recv ch))) ∧
    (∀ (sched : List Action) (s s1 : Sys) (w : Nat) (wk : Worker),
      run env sched s = some s1 → stoppedAlong env sched s = true →
      s.workers[w]? = some wk → preAdmission wk.pc = true →
      ∃ wk1, s1.workers[w]? = some wk1 ∧ preAdmission wk1.pc = true ∧
        eventsOf w s1.events = eventsOf w s.events) ∧
    (∀ (s s1 : Sys) (w : Nat) (wk : Worker),
      step env (.worker w) s = some s1 → s.workers[w]? = some wk →
      (s1.workers[w]?).map (fun x => x.pc) = some .done →
      ∃ ch c, wk.pc = .recv ch ∧ s.chans[ch]? = some c ∧ c.buf = [] ∧ c.closed = true) := by
  refine ⟨?_, ?_, ?_⟩
  · intro s w wk ch u hcr hmux hs hw hpc
    simp [step, worker, hcr, hmux, hs, hw, hpc]
  · intro sched s s1 w wk h hst hw hpre
    exact run_keeps_preAdmission env sched s s1 w wk h hst hw hpre
  · intro s s1 w wk h hw hdone
    have hlt : w < s.workers.length := lookup_lt hw
    unfold step at h
    split at h
    · cases h
    · simp only [hw] at h
      unfold worker at h
      repeat' split at h
      all_goals
        cases h <;> simp_all [Sys.setPc]

end Crawler
